import Mathlib

/-!
Shallow embedding of the photo-portfolio Cloudflare Pages functions
(upload.ts, photos/index.ts, photos/[id].ts, batch_update.ts and the
multi-variant upload handler), together with proofs about the two-key
KV index scheme they maintain.

The KV namespace is modelled as an association list of keys to values;
`kvGet` / `kvPut` / `kvDel` give it finite-map semantics (first match
wins, put replaces in place or appends, delete removes the key).
Values are either plain strings (the `lookup:` entries) or parsed
photo records (the JSON documents stored under `data:` keys); the
JSON round-trip of the code is the identity in this model.  Handlers
are pure functions from the request data and the pre-state of the
store to a response plus the list of storage operations they perform,
in program order; `applyOps` replays those operations on the store.
`Promise.all` over per-id tasks in the batch endpoint is modelled as
left-to-right sequential processing, which agrees with every
interleaving when the ids are distinct.
-/

/-- EXIF metadata substructure of a photo record.  Absent JSON fields are
`none`; latitude and longitude are numeric in the source and are kept
abstract as integers here (no claim computes with them). -/
structure Exif where
  camera : Option String := none
  lens : Option String := none
  aperture : Option String := none
  shutterSpeed : Option String := none
  iso : Option String := none
  focalLength : Option String := none
  location : Option String := none
  date : Option String := none
  latitude : Option Int := none
  longitude : Option Int := none
  deriving Repr, DecidableEq

/-- The size-variant URL object written by the multi-variant upload handler. -/
structure Urls where
  small : Option String := none
  medium : Option String := none
  large : Option String := none
  deriving Repr, DecidableEq

/-- A photo metadata document as stored (JSON) under a `data:` key.
`created_at` is an `Option` because the single-file edit handler builds the
object with `created_at: isEdit ? undefined : now` before possibly
reassigning it; `urls` is only written by the multi-variant handler. -/
structure PhotoRecord where
  id : String
  title : Option String
  description : String
  tags : List String
  created_at : Option String
  updated_at : String
  object_key : String
  mime : String
  size_bytes : Nat
  width : Option Nat
  height : Option Nat
  exif : Exif
  rating : Nat
  is_public : Nat
  url : String
  urls : Option Urls
  deriving Repr, DecidableEq

/-- A value stored in the KV namespace: a plain string (lookup entries)
or a serialized photo record (data entries). -/
inductive KVValue where
  | vstr (s : String)
  | vrec (r : PhotoRecord)
  deriving Repr, DecidableEq

/-- The KV namespace, as an association list from keys to values. -/
abbrev KV := List (String × KVValue)

/-- KV `get`: first binding of the key, if any. -/
def kvGet : KV → String → Option KVValue
  | [], _ => none
  | (k', v) :: rest, k => if k' = k then some v else kvGet rest k

/-- KV `get` of a lookup-style (plain string) value; `none` when the key is
absent or holds a record. -/
def kvGetStr (kv : KV) (k : String) : Option String :=
  match kvGet kv k with
  | some (.vstr s) => some s
  | _ => none

/-- KV `get(key, 'json')` of a record value; `none` when the key is absent or
holds a plain string. -/
def kvGetRec (kv : KV) (k : String) : Option PhotoRecord :=
  match kvGet kv k with
  | some (.vrec r) => some r
  | _ => none

/-- KV `put`: replace the first binding of the key in place, or append. -/
def kvPut : KV → String → KVValue → KV
  | [], k, v => [(k, v)]
  | (k', v') :: rest, k, v =>
    if k' = k then (k, v) :: rest else (k', v') :: kvPut rest k v

/-- KV `delete`: remove every binding of the key. -/
def kvDel : KV → String → KV
  | [], _ => []
  | (k', v') :: rest, k =>
    if k' = k then kvDel rest k else (k', v') :: kvDel rest k

/-- A storage operation performed by a handler, in program order. -/
inductive Op where
  | kvPutOp (k : String) (v : KVValue)
  | kvDelOp (k : String)
  | r2Put (objectKey : String)
  | r2Del (objectKey : String)
  deriving Repr, DecidableEq

/-- Effect of one operation on the KV store (R2 operations do not touch KV). -/
def applyOp (kv : KV) : Op → KV
  | .kvPutOp k v => kvPut kv k v
  | .kvDelOp k => kvDel kv k
  | .r2Put _ => kv
  | .r2Del _ => kv

/-- Replay a list of operations on the store, in order. -/
def applyOps (kv : KV) (ops : List Op) : KV :=
  ops.foldl applyOp kv

/-- Structural test that `p` is a front segment of `s` (character lists).
This is the (UTF-8 byte order = codepoint order) semantics of key
namespacing used by the KV `list({ prefix })` call. -/
def clPre : List Char → List Char → Bool
  | [], _ => true
  | _ :: _, [] => false
  | a :: as, b :: bs => if a = b then clPre as bs else false

/-- Strict lexicographic order on character lists by codepoint, i.e. the
UTF-8 byte order in which the KV namespace enumerates keys. -/
def clLt : List Char → List Char → Bool
  | _, [] => false
  | [], _ :: _ => true
  | a :: as, b :: bs =>
    if a.toNat < b.toNat then true
    else if b.toNat < a.toNat then false
    else clLt as bs

/-- Key order used by the store listing (strings compared bytewise). -/
def keyLt (a b : String) : Bool := clLt a.data b.data

/-- Reflexive key order (total preorder) handed to the sort. -/
def keyLe (a b : String) : Bool := !(keyLt b a)

/-- The ascending bytewise key order as a relation. -/
def keyOrd (a b : String) : Prop := keyLe a b = true

instance : DecidableRel keyOrd := fun a b => by
  unfold keyOrd
  infer_instance

/-- The `list({ prefix, limit })` call: the keys of the namespace that start with
the given front segment, in ascending bytewise order, truncated at `limit`. -/
def kvList (kv : KV) (pre : String) (limit : Nat) : List String :=
  (((kv.filter (fun p => clPre pre.data p.1.data)).map Prod.fst).insertionSort keyOrd).take limit

/-- The inverted timestamp `9999999999999 - t` used for descending sort. -/
def invertTs (t : Nat) : Nat := 9999999999999 - t

/-- Primary data key `data:{inverted_timestamp}:{id}`. -/
def dataKeyStr (inv : Nat) (id : String) : String :=
  "data:" ++ Nat.repr inv ++ ":" ++ id

/-- Lookup key `lookup:{id}`. -/
def lookupKeyStr (id : String) : String := "lookup:" ++ id

/-- An uploaded file part of the multipart form. -/
structure FileData where
  ftype : String
  size : Nat
  deriving Repr, DecidableEq

/-- The parsed `meta` JSON field of the upload/edit form.  Fields the
request may omit are `Option`s. -/
structure Meta where
  id : Option String := none
  title : Option String := none
  description : Option String := none
  category : String := ""
  width : Option Nat := none
  height : Option Nat := none
  exif : Option Exif := none
  rating : Option Nat := none
  url : Option String := none
  deriving Repr, DecidableEq

/-- The partial update payload of the batch endpoint. -/
structure BatchUpdates where
  camera : Option String := none
  lens : Option String := none
  location : Option String := none
  date : Option String := none
  latitude : Option Int := none
  longitude : Option Int := none
  deriving Repr, DecidableEq

/-- Per-id outcome entry of the batch endpoint's `results` array. -/
structure BatchItem where
  id : String
  success : Bool
  error : Option String := none
  deriving Repr, DecidableEq

/-- The projection of a record returned by the list endpoint (heavy EXIF
fields dropped, essentials kept). -/
structure ListExif where
  camera : Option String
  lens : Option String
  aperture : Option String
  shutterSpeed : Option String
  iso : Option String
  focalLength : Option String
  location : String
  latitude : Option Int
  longitude : Option Int
  date : Option String
  deriving Repr, DecidableEq

/-- One item of the list endpoint's response. -/
structure ListItem where
  id : String
  title : Option String
  category : String
  url : String
  urls : Urls
  width : Option Nat
  height : Option Nat
  rating : Nat
  exif : ListExif
  deriving Repr, DecidableEq

/-- The `mappedItems` projection of `photos/index.ts`. -/
def mapItem (r : PhotoRecord) : ListItem :=
  { id := r.id
    title := r.title
    category :=
      match r.tags.head? with
      | some t => if t = "" then "全部" else t
      | none => "全部"
    url := r.url
    urls := r.urls.getD { small := some r.url, medium := some r.url, large := some r.url }
    width := r.width
    height := r.height
    rating := r.rating
    exif :=
      { camera := r.exif.camera
        lens := r.exif.lens
        aperture := r.exif.aperture
        shutterSpeed := r.exif.shutterSpeed
        iso := r.exif.iso
        focalLength := r.exif.focalLength
        location := (r.exif.location).getD ""
        latitude := r.exif.latitude
        longitude := r.exif.longitude
        date := r.exif.date } }

/-- HTTP-level responses of the modelled handlers. -/
inductive HResp where
  | unauthorized
  | badRequest (msg : String)
  | notFound
  | serverError (msg : String)
  | uploadOk (id url : String)
  | uploadOk2 (id url : String) (urls : Urls)
  | deleteOk
  | pageOk (items : List ListItem)
  | batchOk (success : Bool) (results : List BatchItem)
  deriving Repr, DecidableEq

/-- The `Authorization` check `authHeader === ``Bearer ${ADMIN_TOKEN}``.
(An absent or empty header never matches, as in the source.) -/
def authOk (authHeader : Option String) (token : String) : Bool :=
  authHeader = some ("Bearer " ++ token)

namespace Upload

/-- Handler `onRequestPost` of `functions/api/upload.ts`: create a photo.  `photoId`
stands for the generated `crypto.randomUUID()`, `now` for the ISO string of
the request time and `timestamp` for `Date.now()`. -/
def onRequestPost (token baseUrl : String) (authHeader : Option String)
    (kv : KV) (file : Option FileData) (meta? : Option Meta)
    (photoId now : String) (timestamp : Nat) : HResp × List Op :=
  if ¬ authOk authHeader token then (.unauthorized, [])
  else
    match file, meta? with
    | none, _ => (.badRequest "Missing file or metadata", [])
    | _, none => (.badRequest "Missing file or metadata", [])
    | some f, some meta =>
      let objectKey := "photos/" ++ photoId ++ ".jpg"
      let invertedTs := invertTs timestamp
      let imageUrl := baseUrl ++ "/" ++ objectKey
      let photoData : PhotoRecord :=
        { id := photoId
          title := meta.title
          description := ""
          tags := [meta.category]
          created_at := some now
          updated_at := now
          object_key := objectKey
          mime := f.ftype
          size_bytes := f.size
          width := meta.width
          height := meta.height
          exif := meta.exif.getD {}
          rating := meta.rating.getD 0
          is_public := 1
          url := imageUrl
          urls := none }
      let dataKey := dataKeyStr invertedTs photoId
      let lookupKey := lookupKeyStr photoId
      (.uploadOk photoId imageUrl,
        [.r2Put objectKey, .kvPutOp dataKey (.vrec photoData),
         .kvPutOp lookupKey (.vstr dataKey)])

end Upload

namespace PhotoId

/-- Handler `onRequestDelete` of `functions/api/photos/[id].ts`: delete a photo by id. -/
def onRequestDelete (token : String) (authHeader : Option String)
    (kv : KV) (id : String) : HResp × List Op :=
  if ¬ authOk authHeader token then (.unauthorized, [])
  else
    let lookupKey := lookupKeyStr id
    match kvGetStr kv lookupKey with
    | none => (.notFound, [])
    | some dataKey =>
      let r2ops :=
        match kvGetRec kv dataKey with
        | some d => if d.object_key ≠ "" then [Op.r2Del d.object_key] else []
        | none => []
      (.deleteOk, r2ops ++ [.kvDelOp lookupKey, .kvDelOp dataKey])

/-- Handler `onRequestPost` of `functions/api/photos/[id].ts`: create or edit a photo
(single-file form).  `genId` stands for the UUID generated when the payload
carries no id. -/
def onRequestPost (token baseUrl : String) (authHeader : Option String)
    (kv : KV) (file : Option FileData) (meta? : Option Meta)
    (genId now : String) (timestamp : Nat) : HResp × List Op :=
  if ¬ authOk authHeader token then (.unauthorized, [])
  else
    match meta? with
    | none => (.badRequest "Missing metadata", [])
    | some meta =>
      let pid0 := meta.id.getD ""
      let isEdit := pid0 ≠ ""
      let invertedTs := invertTs timestamp
      -- Scenario dispatch: A = a non-empty file is attached, B = metadata-only edit.
      let scenario :
          Option (String × String × String × String × Nat × List Op) :=
        match file with
        | some f =>
          if f.size > 0 then
            let photoId := if pid0 = "" then genId else pid0
            let objectKey := "photos/" ++ photoId ++ ".jpg"
            some (photoId, baseUrl ++ "/" ++ objectKey, objectKey, f.ftype,
              f.size, [Op.r2Put objectKey])
          else none
        | none => none
      match scenario with
      | some (photoId, imageUrl, objectKey, mimeType, sizeBytes, ops0) =>
        finishWrite kv meta isEdit invertedTs photoId imageUrl objectKey
          mimeType sizeBytes now ops0
      | none =>
        if isEdit then
          match kvGetStr kv (lookupKeyStr pid0) with
          | none => (.notFound, [])
          | some existingDataKey =>
            match kvGetRec kv existingDataKey with
            | none => (.serverError "Photo data corrupted", [])
            | some existingData =>
              finishWrite kv meta isEdit invertedTs pid0 existingData.url
                existingData.object_key existingData.mime
                existingData.size_bytes now []
        else
          (.badRequest "File required for new uploads", [])
where
  /-- Common tail of `[id].ts` `onRequestPost`: build `photoData`, pick the
  data key (reusing the existing one when editing), write the KV entries. -/
  finishWrite (kv : KV) (meta : Meta) (isEdit : Bool)
      (invertedTs : Nat) (photoId imageUrl objectKey mimeType : String)
      (sizeBytes : Nat) (now : String) (ops0 : List Op) : HResp × List Op :=
    let photoData : PhotoRecord :=
      { id := photoId
        title := meta.title
        description := meta.description.getD ""
        tags := [meta.category]
        created_at := if isEdit then none else some now
        updated_at := now
        object_key := objectKey
        mime := mimeType
        size_bytes := sizeBytes
        width := meta.width
        height := meta.height
        exif := meta.exif.getD {}
        rating := meta.rating.getD 0
        is_public := 1
        url := imageUrl
        urls := none }
    let dataKey := dataKeyStr invertedTs photoId
    if isEdit then
      match kvGetStr kv (lookupKeyStr photoId) with
      | some existingDataKey =>
        -- `photoData.created_at = (await get(existingDataKey,'json') as any).created_at`
        -- throws (caught as a 500) when the data record is missing.
        match kvGetRec kv existingDataKey with
        | none => (.serverError "TypeError", ops0)
        | some existing =>
          (.uploadOk photoId imageUrl,
            ops0 ++ [.kvPutOp existingDataKey
                      (.vrec { photoData with created_at := existing.created_at })])
      | none =>
        -- "Should have been caught above, but fallback"
        (.uploadOk photoId imageUrl,
          ops0 ++ [.kvPutOp (lookupKeyStr photoId) (.vstr dataKey),
                   .kvPutOp dataKey (.vrec photoData)])
    else
      (.uploadOk photoId imageUrl,
        ops0 ++ [.kvPutOp (lookupKeyStr photoId) (.vstr dataKey),
                 .kvPutOp dataKey (.vrec photoData)])

end PhotoId

namespace PhotosIndex

/-- Handler `onRequestGet` of `functions/api/photos/index.ts`: paginated listing.
`page` and `pageSize` are the parsed query parameters. -/
def onRequestGet (kv : KV) (page pageSize : Nat) : HResp :=
  let page := max page 1
  let totalKeys := kvList kv "data:" 1000
  let startIndex := (page - 1) * pageSize
  if totalKeys.length ≤ startIndex then .pageOk []
  else
    let pageKeys := (totalKeys.drop startIndex).take pageSize
    let items := pageKeys.map (fun k => kvGetRec kv k)
    let validItems := items.filterMap id
    .pageOk (validItems.map mapItem)

end PhotosIndex

namespace BatchUpdate

/-- The exif merge of `batch_update.ts`: a field of the partial update
overrides the stored one exactly when it is present in the payload. -/
def mergeExif (e : Exif) (u : BatchUpdates) : Exif :=
  { e with
    camera := match u.camera with | some c => some c | none => e.camera
    lens := match u.lens with | some c => some c | none => e.lens
    location := match u.location with | some c => some c | none => e.location
    date := match u.date with | some c => some c | none => e.date
    latitude := match u.latitude with | some c => some c | none => e.latitude
    longitude := match u.longitude with | some c => some c | none => e.longitude }

/-- One id's task inside the `Promise.all` of `batch_update.ts`. -/
def processOne (kv : KV) (u : BatchUpdates) (id : String) : BatchItem × List Op :=
  match kvGetStr kv (lookupKeyStr id) with
  | none => ({ id := id, success := false, error := some "Not found" }, [])
  | some dataKey =>
    match kvGetRec kv dataKey with
    | none => ({ id := id, success := false, error := some "Data missing" }, [])
    | some photoData =>
      ({ id := id, success := true },
        [.kvPutOp dataKey (.vrec { photoData with exif := mergeExif photoData.exif u })])

/-- Sequential replay of the per-id tasks (left to right), threading the
store; agrees with any interleaving when the ids are distinct. -/
def runBatch (kv : KV) (u : BatchUpdates) : List String → List BatchItem × List Op
  | [] => ([], [])
  | id :: rest =>
    let (item, ops1) := processOne kv u id
    let (items, ops2) := runBatch (applyOps kv ops1) u rest
    (item :: items, ops1 ++ ops2)

/-- Handler `onRequestPost` of `functions/api/batch_update.ts`. -/
def onRequestPost (token : String) (authHeader : Option String)
    (kv : KV) (ids : List String) (u : BatchUpdates) : HResp × List Op :=
  if ¬ authOk authHeader token then (.unauthorized, [])
  else if ids = [] then (.badRequest "No IDs provided", [])
  else
    let (results, ops) := runBatch kv u ids
    (.batchOk true results, ops)

end BatchUpdate

namespace Part004

/-- Truthiness of an optional string (JS `!x` is true for both `undefined`
and the empty string). -/
def otruthy : Option String → Bool
  | none => false
  | some s => s ≠ ""

/-- The key `photos/{photoId}{suffix}.jpg`, the object key of one uploaded size
variant. -/
def variantKey (photoId sfx : String) : String :=
  "photos/" ++ photoId ++ sfx ++ ".jpg"

/-- File-variant handling stage of the multi-variant handler: returns the
updated `urls` object, the main object key, size, main URL, and the R2
upload operations performed. -/
def variantStage (baseUrl photoId : String)
    (fileSmall fileMedium fileLarge legacyFile : Option FileData)
    (urls0 : Urls) (mainUrl0 objectKey0 : String) (sizeBytes0 : Nat) :
    Urls × String × Nat × String × List Op :=
  let variantUrl := fun (sfx : String) => baseUrl ++ "/" ++ variantKey photoId sfx
  if fileSmall.isSome || fileMedium.isSome || fileLarge.isSome then
    let (u1, o1) :=
      match fileSmall with
      | some _ => ({ urls0 with small := some (variantUrl "_s") },
          [Op.r2Put (variantKey photoId "_s")])
      | none => (urls0, [])
    let (u2, o2) :=
      match fileMedium with
      | some _ => ({ u1 with medium := some (variantUrl "_m") },
          o1 ++ [Op.r2Put (variantKey photoId "_m")])
      | none => (u1, o1)
    match fileLarge with
    | some fl =>
      ({ u2 with large := some (variantUrl "_l") },
        variantKey photoId "_l", fl.size, variantUrl "_l",
        o2 ++ [Op.r2Put (variantKey photoId "_l")])
    | none => (u2, objectKey0, sizeBytes0, mainUrl0, o2)
  else
    match legacyFile with
    | some lf =>
      let url := variantUrl ""
      ({ small := some url, medium := some url, large := some url },
        variantKey photoId "", lf.size, url, [Op.r2Put (variantKey photoId "")])
    | none => (urls0, objectKey0, sizeBytes0, mainUrl0, [])

/-- The "ensure urls exist" block (fill missing/empty variants from the main
URL when it is non-empty), in source order large, medium, small. -/
def ensureUrls (u : Urls) (mainUrl : String) : Urls :=
  let a := if !(otruthy u.large) && mainUrl ≠ "" then { u with large := some mainUrl } else u
  let b := if !(otruthy a.medium) && mainUrl ≠ "" then { a with medium := some mainUrl } else a
  if !(otruthy b.small) && mainUrl ≠ "" then { b with small := some mainUrl } else b

/-- The `photoData` document built by the multi-variant handler. -/
def mkRec (meta : Meta) (photoId now : String) (created : Option String)
    (objectKey : String) (sizeBytes : Nat) (mainUrl : String) (urls2 : Urls) :
    PhotoRecord :=
  { id := photoId, title := meta.title, description := meta.description.getD "",
    tags := [meta.category], created_at := created, updated_at := now,
    object_key := objectKey, mime := "image/jpeg", size_bytes := sizeBytes,
    width := meta.width, height := meta.height, exif := meta.exif.getD {},
    rating := meta.rating.getD 0, is_public := 1, url := mainUrl,
    urls := some urls2 }

/-- The multi-variant upload/edit handler (`onRequestPost` of the unnamed
source file part_004): small/medium/large file variants, `urls` object,
edit keeps the existing key and `created_at` when the lookup resolves.
NOTE: this handler has no 404 path at all — an edit whose lookup is missing
falls through to the create branch. -/
def onRequestPost (token baseUrl : String) (authHeader : Option String)
    (kv : KV) (fileSmall fileMedium fileLarge legacyFile : Option FileData)
    (meta? : Option Meta) (genId now : String) (timestamp : Nat) :
    HResp × List Op :=
  if ¬ authOk authHeader token then (.unauthorized, [])
  else
    match meta? with
    | none => (.badRequest "Missing metadata", [])
    | some meta =>
      let pid0 := meta.id.getD ""
      let isEdit := pid0 ≠ ""
      let photoId := if pid0 = "" then genId else pid0
      let existingData : Option PhotoRecord :=
        if isEdit then
          match kvGetStr kv (lookupKeyStr photoId) with
          | some k => kvGetRec kv k
          | none => none
        else none
      match variantStage baseUrl photoId fileSmall fileMedium fileLarge
          legacyFile ((existingData.bind (·.urls)).getD {})
          ((existingData.map (·.url)).getD "")
          ((existingData.map (·.object_key)).getD "")
          ((existingData.map (·.size_bytes)).getD 0) with
      | (urls1, objectKey, sizeBytes, mainUrl, ops0) =>
        let urls2 := ensureUrls urls1 mainUrl
        let photoData := mkRec meta photoId now
          (match existingData with | some e => e.created_at | none => some now)
          objectKey sizeBytes mainUrl urls2
        let dataKey := dataKeyStr (invertTs timestamp) photoId
        if isEdit then
          match kvGetStr kv (lookupKeyStr photoId) with
          | some existingDataKey =>
            (.uploadOk2 photoId mainUrl urls2,
              ops0 ++ [.kvPutOp existingDataKey (.vrec photoData)])
          | none =>
            (.uploadOk2 photoId mainUrl urls2,
              ops0 ++ [.kvPutOp (lookupKeyStr photoId) (.vstr dataKey),
                       .kvPutOp dataKey (.vrec photoData)])
        else
          (.uploadOk2 photoId mainUrl urls2,
            ops0 ++ [.kvPutOp (lookupKeyStr photoId) (.vstr dataKey),
                     .kvPutOp dataKey (.vrec photoData)])

end Part004

/-! ### Finite-map semantics of the association-list store -/

theorem kvGet_put (kv : KV) (k : String) (v : KVValue) (k' : String) :
    kvGet (kvPut kv k v) k' = if k = k' then some v else kvGet kv k' := by
  induction kv with
  | nil => by_cases h : k = k' <;> simp [kvPut, kvGet, h]
  | cons p rest ih =>
    obtain ⟨a, w⟩ := p
    by_cases hak : a = k
    · subst hak
      by_cases h : a = k' <;> simp [kvPut, kvGet, h, ih]
    · by_cases h : a = k'
      · subst h
        have : ¬ k = a := fun hh => hak hh.symm
        simp [kvPut, kvGet, hak, this]
      · simp [kvPut, kvGet, hak, h, ih]

theorem kvGet_del (kv : KV) (k : String) (k' : String) :
    kvGet (kvDel kv k) k' = if k = k' then none else kvGet kv k' := by
  induction kv with
  | nil => by_cases h : k = k' <;> simp [kvDel, kvGet, h]
  | cons p rest ih =>
    obtain ⟨a, w⟩ := p
    by_cases hak : a = k
    · subst hak
      by_cases h : a = k'
      · subst h
        simp [kvDel, ih]
      · simp [kvDel, kvGet, h, ih]
    · by_cases h : a = k'
      · subst h
        have hne : ¬ k = a := fun hh => hak hh.symm
        simp [kvDel, kvGet, hak, hne]
      · simp [kvDel, kvGet, hak, h, ih]

theorem kvGet_mem {kv : KV} {k : String} {v : KVValue}
    (h : kvGet kv k = some v) : (k, v) ∈ kv := by
  induction kv with
  | nil => simp [kvGet] at h
  | cons p rest ih =>
    obtain ⟨a, w⟩ := p
    by_cases hak : a = k
    · subst hak
      simp [kvGet] at h
      simp [h]
    · simp [kvGet, hak] at h
      exact List.mem_cons_of_mem _ (ih h)

theorem kvGet_of_mem_nodup {kv : KV} {k : String} {v : KVValue}
    (hnd : (kv.map Prod.fst).Nodup) (h : (k, v) ∈ kv) :
    kvGet kv k = some v := by
  induction kv with
  | nil => simp at h
  | cons p rest ih =>
    obtain ⟨a, w⟩ := p
    simp only [List.map_cons, List.nodup_cons] at hnd
    rcases List.mem_cons.mp h with h1 | h2
    · injection h1 with h1a h1b
      subst h1a
      subst h1b
      simp [kvGet]
    · have hak : a ≠ k := by
        intro he
        subst he
        exact hnd.1 (List.mem_map.mpr ⟨(a, v), h2, rfl⟩)
      simp [kvGet, hak]
      exact ih hnd.2 h2

/-! ### Key namespace facts -/

theorem clPre_append_self (p x : List Char) : clPre p (p ++ x) = true := by
  induction p with
  | nil => simp [clPre]
  | cons a as ih => simp [clPre, ih]

theorem lookupKeyStr_data (s : String) :
    (lookupKeyStr s).data = "lookup:".data ++ s.data := by
  simp [lookupKeyStr, String.data_append]

theorem dataKeyStr_data (n : Nat) (i : String) :
    (dataKeyStr n i).data =
      "data:".data ++ (Nat.repr n).data ++ ":".data ++ i.data := by
  simp [dataKeyStr, String.data_append]

theorem dataPre_dataKeyStr (n : Nat) (i : String) :
    clPre "data:".data (dataKeyStr n i).data = true := by
  rw [dataKeyStr_data]
  rw [List.append_assoc, List.append_assoc]
  exact clPre_append_self _ _

theorem lookupPre_lookupKeyStr (s : String) :
    clPre "lookup:".data (lookupKeyStr s).data = true := by
  rw [lookupKeyStr_data]
  exact clPre_append_self _ _

theorem dataPre_lookupKeyStr (s : String) :
    clPre "data:".data (lookupKeyStr s).data = false := by
  rw [lookupKeyStr_data]
  rfl

theorem lookupPre_dataKeyStr (n : Nat) (i : String) :
    clPre "lookup:".data (dataKeyStr n i).data = false := by
  rw [dataKeyStr_data]
  rfl

theorem lookupKeyStr_ne_dataKeyStr (s : String) (n : Nat) (i : String) :
    lookupKeyStr s ≠ dataKeyStr n i := by
  intro h
  have h1 := lookupPre_lookupKeyStr s
  rw [h, lookupPre_dataKeyStr] at h1
  exact Bool.false_ne_true h1

theorem lookupKeyStr_inj {a b : String} (h : lookupKeyStr a = lookupKeyStr b) :
    a = b := by
  have hd := congrArg String.data h
  rw [lookupKeyStr_data, lookupKeyStr_data] at hd
  exact String.ext (List.append_cancel_left hd)

/-! ### The two-key index invariant -/

/-- The invariant the spec states for the store: every `data:` entry is a
record whose key has the shape `data:{inv}:{id}` and whose id has a
`lookup:` entry pointing back at that exact key, and every `lookup:` entry
points at a `data:` entry holding a record carrying its id.  Together with
the functionality of `kvGet` this makes the data key of each live id unique
(`WF.data_unique`). -/
structure WF (kv : KV) : Prop where
  data_side : ∀ k v, kvGet kv k = some v → clPre "data:".data k.data = true →
    ∃ r n, v = .vrec r ∧ k = dataKeyStr n r.id ∧
      kvGet kv (lookupKeyStr r.id) = some (.vstr k)
  lookup_side : ∀ k v, kvGet kv k = some v → clPre "lookup:".data k.data = true →
    ∃ d r, v = .vstr d ∧ k = lookupKeyStr r.id ∧
      kvGet kv d = some (.vrec r) ∧ clPre "data:".data d.data = true

/-- In a well-formed store there is exactly one primary key per live id. -/
theorem WF.data_unique {kv : KV} (h : WF kv) {k1 k2 : String}
    {r1 r2 : PhotoRecord}
    (h1 : kvGet kv k1 = some (.vrec r1)) (p1 : clPre "data:".data k1.data = true)
    (h2 : kvGet kv k2 = some (.vrec r2)) (p2 : clPre "data:".data k2.data = true)
    (hid : r1.id = r2.id) : k1 = k2 := by
  obtain ⟨ra, na, hva, hka, hla⟩ := h.data_side k1 _ h1 p1
  obtain ⟨rb, nb, hvb, hkb, hlb⟩ := h.data_side k2 _ h2 p2
  cases hva
  cases hvb
  rw [hid] at hla
  have := hla.symm.trans hlb
  simpa using this

/-- Overwriting the data key that the id's lookup entry designates, with a
record carrying that id, preserves the two-key invariant. -/
theorem WF_overwrite {kv : KV} (h : WF kv) {i d : String} {r : PhotoRecord}
    (hlk : kvGet kv (lookupKeyStr i) = some (.vstr d)) (hid : r.id = i) :
    WF (kvPut kv d (.vrec r)) := by
  obtain ⟨d0, old, hveq, hkeq, hold, holdpre⟩ :=
    h.lookup_side (lookupKeyStr i) _ hlk (lookupPre_lookupKeyStr i)
  cases hveq
  have holdid : old.id = i := (lookupKeyStr_inj hkeq).symm
  obtain ⟨old2, nd, hveq2, hdshape, _⟩ := h.data_side d _ hold holdpre
  cases hveq2
  have hdne : ∀ s : String, lookupKeyStr s ≠ d := by
    intro s hcon
    rw [hdshape] at hcon
    exact lookupKeyStr_ne_dataKeyStr _ _ _ hcon
  constructor
  · intro k v hget hpre
    rw [kvGet_put] at hget
    by_cases hdk : d = k
    · subst hdk
      rw [if_pos rfl] at hget
      refine ⟨r, nd, (Option.some.inj hget).symm, ?_, ?_⟩
      · rw [hid, ← holdid]
        exact hdshape
      · rw [kvGet_put, if_neg (fun hh => hdne r.id hh.symm), hid]
        exact hlk
    · rw [if_neg hdk] at hget
      obtain ⟨rr, m, hv, hk, hl⟩ := h.data_side k v hget hpre
      refine ⟨rr, m, hv, hk, ?_⟩
      rw [kvGet_put, if_neg (fun hh => hdne rr.id hh.symm)]
      exact hl
  · intro k v hget hpre
    rw [kvGet_put] at hget
    by_cases hdk : d = k
    · exfalso
      subst hdk
      rw [hdshape, lookupPre_dataKeyStr] at hpre
      exact Bool.false_ne_true hpre
    · rw [if_neg hdk] at hget
      obtain ⟨dd, rr, hv, hk, hg, hdp⟩ := h.lookup_side k v hget hpre
      by_cases hddd : dd = d
      · subst hddd
        have hrr : rr = old := by
          have := hg.symm.trans hold
          simpa using this
        refine ⟨dd, r, hv, ?_, ?_, ?_⟩
        · rw [hk, hrr, holdid, ← hid]
        · rw [kvGet_put, if_pos rfl]
        · exact hdp
      · refine ⟨dd, rr, hv, hk, ?_, hdp⟩
        rw [kvGet_put, if_neg (fun hh => hddd hh.symm)]
        exact hg

/-- Any store whose `get` behaves like the original one extended with a
fresh `data:{inv}:{id}` record and a fresh `lookup:{id}` entry pointing at
it satisfies the two-key invariant.  Stated against an abstract
characterization so that it covers both write orders used by the code
(`upload.ts` writes data before lookup, `[id].ts` lookup before data). -/
theorem WF_create_char {kv kv' : KV} (h : WF kv) {i : String} {n : Nat}
    {r : PhotoRecord} (hid : r.id = i)
    (hfl : kvGet kv (lookupKeyStr i) = none)
    (hfd : kvGet kv (dataKeyStr n i) = none)
    (hchar : ∀ x, kvGet kv' x =
      if dataKeyStr n i = x then some (.vrec r)
      else if lookupKeyStr i = x then some (.vstr (dataKeyStr n i))
      else kvGet kv x) : WF kv' := by
  constructor
  · intro k v hget hpre
    rw [hchar] at hget
    by_cases hdk : dataKeyStr n i = k
    · rw [if_pos hdk] at hget
      refine ⟨r, n, (Option.some.inj hget).symm, ?_, ?_⟩
      · rw [← hdk, hid]
      · rw [hchar, hid,
          if_neg (fun hh => lookupKeyStr_ne_dataKeyStr i n i hh.symm),
          if_pos rfl, hdk]
    · rw [if_neg hdk] at hget
      by_cases hlk : lookupKeyStr i = k
      · exfalso
        rw [if_pos hlk] at hget
        rw [← hlk, dataPre_lookupKeyStr] at hpre
        exact Bool.false_ne_true hpre
      · rw [if_neg hlk] at hget
        obtain ⟨rr, m, hv, hk, hl⟩ := h.data_side k v hget hpre
        refine ⟨rr, m, hv, hk, ?_⟩
        rw [hchar, if_neg (fun hh => lookupKeyStr_ne_dataKeyStr rr.id n i hh.symm),
          if_neg ?_]
        · exact hl
        · intro hh
          have : rr.id = i := lookupKeyStr_inj hh.symm
          rw [this] at hl
          rw [hfl] at hl
          exact Option.noConfusion hl
  · intro k v hget hpre
    rw [hchar] at hget
    by_cases hdk : dataKeyStr n i = k
    · exfalso
      rw [← hdk, dataKeyStr_data] at hpre
      have : clPre "lookup:".data (dataKeyStr n i).data = false :=
        lookupPre_dataKeyStr n i
      rw [dataKeyStr_data] at this
      rw [this] at hpre
      exact Bool.false_ne_true hpre
    · rw [if_neg hdk] at hget
      by_cases hlk : lookupKeyStr i = k
      · rw [if_pos hlk] at hget
        refine ⟨dataKeyStr n i, r, (Option.some.inj hget).symm, ?_, ?_, ?_⟩
        · rw [← hlk, hid]
        · rw [hchar, if_pos rfl]
        · exact dataPre_dataKeyStr n i
      · rw [if_neg hlk] at hget
        obtain ⟨dd, rr, hv, hk, hg, hdp⟩ := h.lookup_side k v hget hpre
        refine ⟨dd, rr, hv, hk, ?_, hdp⟩
        rw [hchar, if_neg ?_, if_neg ?_]
        · exact hg
        · intro hh
          rw [← hh, dataPre_lookupKeyStr] at hdp
          exact Bool.false_ne_true hdp
        · intro hh
          rw [← hh] at hg
          rw [hfd] at hg
          exact Option.noConfusion hg

/-- Writing lookup then data (the `[id].ts` order) on fresh keys preserves
the invariant. -/
theorem WF_create_lookup_first {kv : KV} (h : WF kv) {i : String} {n : Nat}
    {r : PhotoRecord} (hid : r.id = i)
    (hfl : kvGet kv (lookupKeyStr i) = none)
    (hfd : kvGet kv (dataKeyStr n i) = none) :
    WF (kvPut (kvPut kv (lookupKeyStr i) (.vstr (dataKeyStr n i)))
      (dataKeyStr n i) (.vrec r)) := by
  refine WF_create_char h hid hfl hfd (fun x => ?_)
  rw [kvGet_put, kvGet_put]

/-- Writing data then lookup (the `upload.ts` order) on fresh keys preserves
the invariant. -/
theorem WF_create_data_first {kv : KV} (h : WF kv) {i : String} {n : Nat}
    {r : PhotoRecord} (hid : r.id = i)
    (hfl : kvGet kv (lookupKeyStr i) = none)
    (hfd : kvGet kv (dataKeyStr n i) = none) :
    WF (kvPut (kvPut kv (dataKeyStr n i) (.vrec r))
      (lookupKeyStr i) (.vstr (dataKeyStr n i))) := by
  refine WF_create_char h hid hfl hfd (fun x => ?_)
  rw [kvGet_put, kvGet_put]
  by_cases hlx : lookupKeyStr i = x
  · rw [if_pos hlx,
      if_neg (by rw [← hlx]; exact fun hh => lookupKeyStr_ne_dataKeyStr i n i hh.symm),
      if_pos hlx]
  · rw [if_neg hlx]
    by_cases hdx : dataKeyStr n i = x
    · rw [if_pos hdx, if_pos hdx]
    · rw [if_neg hdx, if_neg hdx, if_neg hlx]

/-- Deleting the lookup entry and the data key it designates preserves the
invariant. -/
theorem WF_delete {kv : KV} (h : WF kv) {i d : String}
    (hlk : kvGet kv (lookupKeyStr i) = some (.vstr d)) :
    WF (kvDel (kvDel kv (lookupKeyStr i)) d) := by
  obtain ⟨d0, old, hveq, hkeq, hold, holdpre⟩ :=
    h.lookup_side (lookupKeyStr i) _ hlk (lookupPre_lookupKeyStr i)
  cases hveq
  have holdid : old.id = i := (lookupKeyStr_inj hkeq).symm
  obtain ⟨old2, nd, hveq2, hdshape, _⟩ := h.data_side d _ hold holdpre
  cases hveq2
  have hchar : ∀ x, kvGet (kvDel (kvDel kv (lookupKeyStr i)) d) x =
      if d = x then none else if lookupKeyStr i = x then none else kvGet kv x := by
    intro x
    rw [kvGet_del, kvGet_del]
  constructor
  · intro k v hget hpre
    rw [hchar] at hget
    by_cases hdk : d = k
    · rw [if_pos hdk] at hget
      exact Option.noConfusion hget
    · rw [if_neg hdk] at hget
      by_cases hlkk : lookupKeyStr i = k
      · rw [if_pos hlkk] at hget
        exact Option.noConfusion hget
      · rw [if_neg hlkk] at hget
        obtain ⟨rr, m, hv, hk, hl⟩ := h.data_side k v hget hpre
        refine ⟨rr, m, hv, hk, ?_⟩
        rw [hchar, if_neg (by rw [hdshape]; exact fun hh =>
          lookupKeyStr_ne_dataKeyStr rr.id nd old.id hh.symm), if_neg ?_]
        · exact hl
        · intro hh
          have hri : rr.id = i := lookupKeyStr_inj hh.symm
          rw [hri, hlk] at hl
          have : d = k := by
            have := Option.some.inj hl
            injection this with hv2
          exact hdk this
  · intro k v hget hpre
    rw [hchar] at hget
    by_cases hdk : d = k
    · rw [if_pos hdk] at hget
      exact Option.noConfusion hget
    · rw [if_neg hdk] at hget
      by_cases hlkk : lookupKeyStr i = k
      · rw [if_pos hlkk] at hget
        exact Option.noConfusion hget
      · rw [if_neg hlkk] at hget
        obtain ⟨dd, rr, hv, hk, hg, hdp⟩ := h.lookup_side k v hget hpre
        refine ⟨dd, rr, hv, hk, ?_, hdp⟩
        rw [hchar, if_neg ?_, if_neg ?_]
        · exact hg
        · intro hh
          rw [← hh, dataPre_lookupKeyStr] at hdp
          exact Bool.false_ne_true hdp
        · intro hh
          rw [← hh] at hg
          have : rr = old := by
            have := hg.symm.trans hold
            simpa using this
          rw [hk, this, holdid] at hlkk
          exact hlkk rfl

/-! ### Decimal representation of the inverted timestamp -/

/-- Structural decimal digit list of a natural number (most significant
first); proven equal to the characters of `Nat.repr`, which is how the
template literal renders `invertedTs` into the data key. -/
def decChars (n : Nat) : List Char :=
  if h : n < 10 then [Nat.digitChar n]
  else decChars (n / 10) ++ [Nat.digitChar (n % 10)]
decreasing_by
  exact Nat.div_lt_self (by omega) (by omega)

theorem decChars_lt10 {n : Nat} (h : n < 10) :
    decChars n = [Nat.digitChar n] := by
  rw [decChars]
  simp [h]

theorem decChars_ge10 {n : Nat} (h : 10 ≤ n) :
    decChars n = decChars (n / 10) ++ [Nat.digitChar (n % 10)] := by
  rw [decChars]
  simp [Nat.not_lt.mpr h]

theorem toDigitsCore_eq_decChars (fuel n : Nat) (ds : List Char)
    (hf : n < fuel) : Nat.toDigitsCore 10 fuel n ds = decChars n ++ ds := by
  induction fuel generalizing n ds with
  | zero => omega
  | succ f ih =>
    by_cases h0 : n / 10 = 0
    · have hn : n < 10 := by omega
      simp [Nat.toDigitsCore, h0, decChars_lt10 hn, Nat.mod_eq_of_lt hn]
    · have hge : 10 ≤ n := by
        by_contra hlt
        push_neg at hlt
        rw [Nat.div_eq_of_lt hlt] at h0
        exact h0 rfl
      have hlt : n / 10 < f := by
        have h1 : n / 10 < n := Nat.div_lt_self (by omega) (by omega)
        omega
      simp [Nat.toDigitsCore, h0, ih _ _ hlt, decChars_ge10 hge]

theorem Nat_repr_data (n : Nat) : (Nat.repr n).data = decChars n := by
  unfold Nat.repr Nat.toDigits
  rw [toDigitsCore_eq_decChars (n + 1) n [] (Nat.lt_succ_self n)]
  simp [List.asString]

theorem digitChar_toNat {d : Nat} (h : d < 10) :
    (Nat.digitChar d).toNat = 48 + d := by
  interval_cases d <;> rfl

theorem clLt_cons_cons (x y : Char) (A B : List Char) :
    clLt (x :: A) (y :: B) =
      if x.toNat < y.toNat then true
      else if y.toNat < x.toNat then false else clLt A B := rfl

theorem clLt_append {a b : List Char} (hlen : a.length = b.length)
    (h : clLt a b = true) (u v : List Char) :
    clLt (a ++ u) (b ++ v) = true := by
  induction a generalizing b with
  | nil =>
    cases b with
    | nil => simp [clLt] at h
    | cons y ys => simp at hlen
  | cons x xs ih =>
    cases b with
    | nil => simp at hlen
    | cons y ys =>
      rw [List.cons_append, List.cons_append, clLt_cons_cons]
      rw [clLt_cons_cons] at h
      by_cases h1 : x.toNat < y.toNat
      · simp [h1]
      · by_cases h2 : y.toNat < x.toNat
        · simp [h1, h2] at h
        · simp only [if_neg h1, if_neg h2] at h ⊢
          exact ih (by simpa using hlen) h

theorem clLt_append_left (p x y : List Char) :
    clLt (p ++ x) (p ++ y) = clLt x y := by
  induction p with
  | nil => rfl
  | cons a as ih => simp [clLt_cons_cons, ih]

theorem decChars_len_pos (n : Nat) : 1 ≤ (decChars n).length := by
  by_cases h : n < 10
  · rw [decChars_lt10 h]
    simp
  · rw [decChars_ge10 (by omega)]
    simp

theorem decChars_len_two {n : Nat} (h : 10 ≤ n) :
    2 ≤ (decChars n).length := by
  rw [decChars_ge10 h]
  have := decChars_len_pos (n / 10)
  simp
  omega

/-- Decimal strings of equal length compare lexicographically exactly as the
numbers they denote. -/
theorem clLt_decChars {n m : Nat} (hmn : m < n)
    (hlen : (decChars m).length = (decChars n).length) :
    clLt (decChars m) (decChars n) = true := by
  induction n using Nat.strong_induction_on generalizing m with
  | _ n ih =>
    by_cases hn : n < 10
    · have hm : m < 10 := by omega
      have hd : (Nat.digitChar m).toNat < (Nat.digitChar n).toNat := by
        rw [digitChar_toNat hm, digitChar_toNat hn]
        omega
      rw [decChars_lt10 hm, decChars_lt10 hn, clLt_cons_cons]
      simp [hd]
    · by_cases hm : m < 10
      · exfalso
        have h2 := decChars_len_two (show 10 ≤ n by omega)
        rw [decChars_lt10 hm] at hlen
        simp at hlen
        omega
      · have hm10 : 10 ≤ m := by omega
        have hn10 : 10 ≤ n := by omega
        rw [decChars_ge10 hm10, decChars_ge10 hn10] at hlen ⊢
        have hlen2 : (decChars (m / 10)).length = (decChars (n / 10)).length := by
          simp at hlen
          omega
        have hq : m / 10 ≤ n / 10 := Nat.div_le_div_right (le_of_lt hmn)
        rcases lt_or_eq_of_le hq with hqlt | hqeq
        · exact clLt_append hlen2
            (ih (n / 10) (Nat.div_lt_self (by omega) (by omega)) hqlt hlen2) _ _
        · rw [hqeq, clLt_append_left]
          have hmod : m % 10 < n % 10 := by
            have h1 := Nat.div_add_mod m 10
            have h2 := Nat.div_add_mod n 10
            omega
          have hd : (Nat.digitChar (m % 10)).toNat <
              (Nat.digitChar (n % 10)).toNat := by
            rw [digitChar_toNat (Nat.mod_lt _ (by omega)),
              digitChar_toNat (Nat.mod_lt _ (by omega))]
            omega
          rw [clLt_cons_cons]
          simp [hd]

theorem clLt_asymm : ∀ {a b : List Char}, clLt a b = true → clLt b a = false
  | [], [], h => by simp [clLt] at h
  | [], _ :: _, _ => by simp [clLt]
  | _ :: _, [], h => by simp [clLt] at h
  | x :: xs, y :: ys, h => by
    rw [clLt_cons_cons] at h
    rw [clLt_cons_cons]
    by_cases h1 : x.toNat < y.toNat
    · rw [if_neg (by omega), if_pos h1]
    · by_cases h2 : y.toNat < x.toNat
      · simp [h1, h2] at h
      · simp only [if_neg h1, if_neg h2] at h
        rw [if_neg h2, if_neg h1]
        exact clLt_asymm h

theorem clLt_conn : ∀ {a b : List Char},
    clLt a b = false → clLt b a = false → a = b
  | [], [], _, _ => rfl
  | [], _ :: _, h, _ => by simp [clLt] at h
  | _ :: _, [], _, h => by simp [clLt] at h
  | x :: xs, y :: ys, h, h' => by
    rw [clLt_cons_cons] at h h'
    by_cases h1 : x.toNat < y.toNat
    · simp [h1] at h
    · by_cases h2 : y.toNat < x.toNat
      · simp [h1, h2] at h'
      · simp only [if_neg h1, if_neg h2] at h h'
        have hxy : x = y := by
          have : x.toNat = y.toNat := by omega
          calc x = Char.ofNat x.toNat := (Char.ofNat_toNat x).symm
            _ = Char.ofNat y.toNat := by rw [this]
            _ = y := Char.ofNat_toNat y
        rw [hxy, clLt_conn h h']

theorem clLt_trans : ∀ {a b c : List Char},
    clLt a b = true → clLt b c = true → clLt a c = true
  | _, _, [], _, h2 => by simp [clLt] at h2
  | _, [], _ :: _, h1, _ => by simp [clLt] at h1
  | [], _ :: _, _ :: _, _, _ => by simp [clLt]
  | x :: xs, y :: ys, z :: zs, h1, h2 => by
    rw [clLt_cons_cons] at h1 h2
    rw [clLt_cons_cons]
    by_cases hxy : x.toNat < y.toNat
    · by_cases hyz : y.toNat < z.toNat
      · rw [if_pos (by omega)]
      · by_cases hzy : z.toNat < y.toNat
        · simp [hyz, hzy] at h2
        · rw [if_pos (by omega)]
    · by_cases hyx : y.toNat < x.toNat
      · simp [hxy, hyx] at h1
      · simp only [if_neg hxy, if_neg hyx] at h1
        by_cases hyz : y.toNat < z.toNat
        · rw [if_pos (by omega)]
        · by_cases hzy : z.toNat < y.toNat
          · simp [hyz, hzy] at h2
          · simp only [if_neg hyz, if_neg hzy] at h2
            rw [if_neg (by omega), if_neg (by omega)]
            exact clLt_trans h1 h2

theorem keyLe_trans (a b c : String) (h1 : keyLe a b = true)
    (h2 : keyLe b c = true) : keyLe a c = true := by
  unfold keyLe keyLt at h1 h2 ⊢
  simp only [Bool.not_eq_true'] at h1 h2
  simp only [Bool.not_eq_true']
  by_cases hca : clLt c.data a.data = true
  · by_cases hab : clLt a.data b.data = true
    · have ht := clLt_trans hca hab
      rw [ht] at h2
      exact Bool.noConfusion h2
    · have hab' : clLt a.data b.data = false := by simpa using hab
      have hba : b.data = a.data := clLt_conn h1 hab'
      rw [hba] at h2
      exact h2
  · simpa using hca

theorem keyLe_total (a b : String) : (keyLe a b || keyLe b a) = true := by
  unfold keyLe keyLt
  by_cases h : clLt b.data a.data = true
  · rw [clLt_asymm h]
    simp
  · have h' : clLt b.data a.data = false := by simpa using h
    rw [h']
    simp

/-- Newer (larger) timestamps yield lexicographically smaller data keys,
whenever the two inverted values print with the same number of digits. -/
theorem keyLt_dataKeyStr {a b : Nat} (i1 i2 : String) (hab : a < b)
    (hlen : (decChars a).length = (decChars b).length) :
    keyLt (dataKeyStr a i1) (dataKeyStr b i2) = true := by
  unfold keyLt
  rw [dataKeyStr_data, dataKeyStr_data, Nat_repr_data, Nat_repr_data]
  simp only [List.append_assoc]
  rw [clLt_append_left]
  exact clLt_append hlen (clLt_decChars hab hlen) _ _

/-! ### Pagination facts -/

theorem flatten_slices {α : Type} (S : Nat) (L : List α) (n : Nat) :
    ((List.range n).map (fun i => (L.drop (i * S)).take S)).flatten =
      L.take (n * S) := by
  induction n with
  | zero => simp
  | succ k ih =>
    rw [List.range_succ, List.map_append, List.flatten_append, ih]
    simp only [List.map_cons, List.map_nil, List.flatten_cons, List.flatten_nil,
      List.append_nil]
    rw [Nat.succ_mul, List.take_add]

theorem pages_mul_ge (N S : Nat) (hS : 0 < S) :
    N ≤ ((N + S - 1) / S) * S := by
  have h1 := Nat.div_add_mod (N + S - 1) S
  have h2 : (N + S - 1) % S < S := Nat.mod_lt _ hS
  rw [Nat.mul_comm]
  generalize hq : S * ((N + S - 1) / S) = B at h1 ⊢
  omega

theorem page_start_lt {N S i : Nat} (hS : 0 < S)
    (hi : i < (N + S - 1) / S) : i * S < N := by
  have h1 := Nat.div_add_mod (N + S - 1) S
  have h2 : (N + S - 1) % S < S := Nat.mod_lt _ hS
  have h4 : (i + 1) * S ≤ ((N + S - 1) / S) * S := Nat.mul_le_mul_right S hi
  rw [Nat.add_mul, Nat.one_mul, Nat.mul_comm ((N + S - 1) / S) S] at h4
  generalize hq : S * ((N + S - 1) / S) = B at h1 h4
  generalize hA : i * S = A at h4 ⊢
  omega

theorem kvList_mem {kv : KV} {pre : String} {lim : Nat} {k : String}
    (h : k ∈ kvList kv pre lim) :
    ∃ v, (k, v) ∈ kv ∧ clPre pre.data k.data = true := by
  unfold kvList at h
  have h1 := List.mem_of_mem_take h
  have h2 := (List.perm_insertionSort keyOrd _).mem_iff.mp h1
  obtain ⟨⟨k', v⟩, hmem, hfst⟩ := List.mem_map.mp h2
  obtain ⟨hkv, hpre⟩ := List.mem_filter.mp hmem
  cases hfst
  exact ⟨v, hkv, hpre⟩

theorem kvList_nodup {kv : KV} (pre : String) (lim : Nat)
    (hnd : (kv.map Prod.fst).Nodup) : (kvList kv pre lim).Nodup := by
  unfold kvList
  refine List.Nodup.sublist (List.take_sublist _ _) ?_
  rw [(List.perm_insertionSort keyOrd _).nodup_iff]
  exact List.Nodup.sublist (List.Sublist.map _ (List.filter_sublist kv)) hnd

theorem kvList_sorted (kv : KV) (pre : String) (lim : Nat) :
    (kvList kv pre lim).Pairwise keyOrd := by
  unfold kvList
  refine List.Pairwise.sublist (List.take_sublist _ _) ?_
  haveI : IsTotal String keyOrd := ⟨fun a b => by
    unfold keyOrd
    rcases Bool.or_eq_true_iff.mp (keyLe_total a b) with h | h
    · exact Or.inl h
    · exact Or.inr h⟩
  haveI : IsTrans String keyOrd := ⟨fun a b c h1 h2 =>
    keyLe_trans a b c h1 h2⟩
  exact List.sorted_insertionSort keyOrd _

theorem kvList_complete {kv : KV} {k : String} {v : KVValue}
    (hN : ((kv.filter (fun p => clPre "data:".data p.1.data)).map Prod.fst).length ≤ 1000)
    (hkv : (k, v) ∈ kv) (hpre : clPre "data:".data k.data = true) :
    k ∈ kvList kv "data:" 1000 := by
  unfold kvList
  rw [List.take_of_length_le]
  · rw [(List.perm_insertionSort keyOrd _).mem_iff]
    exact List.mem_map.mpr ⟨(k, v), List.mem_filter.mpr ⟨hkv, hpre⟩, rfl⟩
  · rw [(List.perm_insertionSort keyOrd _).length_eq]
    exact hN

theorem flatten_map_filterMap {α β γ : Type} (f : α → Option β) (h : β → γ) :
    ∀ ls : List (List α),
      (ls.map (fun x => (x.filterMap f).map h)).flatten =
        (ls.flatten.filterMap f).map h := by
  intro ls
  induction ls with
  | nil => rfl
  | cons x xs ih =>
    simp only [List.map_cons, List.flatten_cons, List.filterMap_append,
      List.map_append, ih]

/-! ### Claim theorems -/

theorem runBatch_length (u : BatchUpdates) :
    ∀ (ids : List String) (kv : KV),
      (BatchUpdate.runBatch kv u ids).1.length = ids.length := by
  intro ids
  induction ids with
  | nil => intro kv; rfl
  | cons i rest ih =>
    intro kv
    unfold BatchUpdate.runBatch
    simp [ih]

/-- C10: for every authorized batch-update request with a non-empty ids
array, the response is the 200 JSON `{ success: true, results }` — the
top-level success flag is the literal `true` whatever the per-id outcomes
are, and failures surface only inside the per-item `results` array (which
has one entry per requested id). -/
theorem c10_batch_overall_success (token : String) (kv : KV)
    (ids : List String) (u : BatchUpdates) (hne : ids ≠ []) :
    ∃ results ops,
      BatchUpdate.onRequestPost token (some ("Bearer " ++ token)) kv ids u =
        (.batchOk true results, ops) ∧ results.length = ids.length := by
  refine ⟨(BatchUpdate.runBatch kv u ids).1, (BatchUpdate.runBatch kv u ids).2,
    ?_, runBatch_length u ids kv⟩
  unfold BatchUpdate.onRequestPost
  simp [authOk, hne]

/-- Witness for C10 at a concrete input on which every id fails: two
requested ids, an empty store, still `success: true` overall. -/
theorem c10_batch_overall_success_witness :
    (["a", "b"] : List String) ≠ [] ∧
    ∃ results ops,
      BatchUpdate.onRequestPost "tok" (some ("Bearer " ++ "tok")) []
          ["a", "b"] {} = (.batchOk true results, ops) ∧
        results.length = (["a", "b"] : List String).length :=
  ⟨by decide, c10_batch_overall_success "tok" [] ["a", "b"] {} (by decide)⟩

/-- C9: for every id a batch update processes successfully, the write goes
to the id's existing primary key, every field outside `exif` is unchanged,
and inside `exif` only the payload-present fields (camera, lens, location,
date, latitude, longitude) change while all other exif fields are kept. -/
theorem c9_batch_frame (kv : KV) (u : BatchUpdates) (id dk : String)
    (r : PhotoRecord)
    (hlk : kvGetStr kv (lookupKeyStr id) = some dk)
    (hrec : kvGetRec kv dk = some r) :
    ∃ r', BatchUpdate.processOne kv u id =
        ({ id := id, success := true }, [.kvPutOp dk (.vrec r')]) ∧
      r'.id = r.id ∧ r'.title = r.title ∧ r'.description = r.description ∧
      r'.tags = r.tags ∧ r'.created_at = r.created_at ∧
      r'.updated_at = r.updated_at ∧ r'.object_key = r.object_key ∧
      r'.mime = r.mime ∧ r'.size_bytes = r.size_bytes ∧ r'.width = r.width ∧
      r'.height = r.height ∧ r'.rating = r.rating ∧
      r'.is_public = r.is_public ∧ r'.url = r.url ∧ r'.urls = r.urls ∧
      r'.exif.aperture = r.exif.aperture ∧
      r'.exif.shutterSpeed = r.exif.shutterSpeed ∧
      r'.exif.iso = r.exif.iso ∧ r'.exif.focalLength = r.exif.focalLength ∧
      (u.camera = none → r'.exif.camera = r.exif.camera) ∧
      (∀ c, u.camera = some c → r'.exif.camera = some c) ∧
      (u.lens = none → r'.exif.lens = r.exif.lens) ∧
      (∀ c, u.lens = some c → r'.exif.lens = some c) ∧
      (u.location = none → r'.exif.location = r.exif.location) ∧
      (∀ c, u.location = some c → r'.exif.location = some c) ∧
      (u.date = none → r'.exif.date = r.exif.date) ∧
      (∀ c, u.date = some c → r'.exif.date = some c) ∧
      (u.latitude = none → r'.exif.latitude = r.exif.latitude) ∧
      (∀ c, u.latitude = some c → r'.exif.latitude = some c) ∧
      (u.longitude = none → r'.exif.longitude = r.exif.longitude) ∧
      (∀ c, u.longitude = some c → r'.exif.longitude = some c) := by
  refine ⟨{ r with exif := BatchUpdate.mergeExif r.exif u }, ?_, ?_⟩
  · unfold BatchUpdate.processOne
    rw [hlk]
    simp [hrec]
  · refine ⟨rfl, rfl, rfl, rfl, rfl, rfl, rfl, rfl, rfl, rfl, rfl, rfl, rfl,
      rfl, rfl, rfl, rfl, rfl, rfl, ?_, ?_, ?_, ?_, ?_, ?_, ?_, ?_, ?_, ?_,
      ?_, ?_⟩ <;>
      first
        | (intro h; simp [BatchUpdate.mergeExif, h])
        | (intro c h; simp [BatchUpdate.mergeExif, h])

/-! ### Concrete fixtures used by witnesses and counterexamples -/

def exA : Exif :=
  { camera := some "Leica M11", lens := some "Summilux 35",
    aperture := some "f/1.4", shutterSpeed := some "1/250", iso := some "200",
    focalLength := some "35mm", location := some "Kyoto",
    date := some "2024-01-01", latitude := some 35, longitude := some 135 }

def recA : PhotoRecord :=
  { id := "a", title := some "A", description := "old words", tags := ["风光"],
    created_at := some "2024-01-01T00:00:00.000Z",
    updated_at := "2024-01-01T00:00:00.000Z", object_key := "photos/a.jpg",
    mime := "image/jpeg", size_bytes := 3, width := some 40, height := some 30,
    exif := exA, rating := 5, is_public := 1,
    url := "https://img.example/photos/a.jpg", urls := none }

def recB : PhotoRecord :=
  { id := "b", title := some "B", description := "", tags := ["人像"],
    created_at := some "2024-02-01T00:00:00.000Z",
    updated_at := "2024-02-01T00:00:00.000Z", object_key := "photos/b.jpg",
    mime := "image/jpeg", size_bytes := 4, width := some 40, height := some 30,
    exif := {}, rating := 4, is_public := 1,
    url := "https://img.example/photos/b.jpg", urls := none }

/-- A two-record well-formed store (b is newer: smaller inverted key). -/
def kvAB : KV :=
  [("data:123:b", .vrec recB), ("lookup:b", .vstr "data:123:b"),
   ("data:456:a", .vrec recA), ("lookup:a", .vstr "data:456:a")]

def uW : BatchUpdates := { camera := some "Fuji X100", location := some "Tokyo" }

/-- Witness for C9 at a concrete store and payload. -/
theorem c9_batch_frame_witness :
    kvGetStr kvAB (lookupKeyStr "a") = some "data:456:a" ∧
    kvGetRec kvAB "data:456:a" = some recA ∧
    ∃ r', BatchUpdate.processOne kvAB uW "a" =
        ({ id := "a", success := true }, [.kvPutOp "data:456:a" (.vrec r')]) ∧
      r'.id = recA.id ∧ r'.title = recA.title ∧ r'.description = recA.description ∧
      r'.tags = recA.tags ∧ r'.created_at = recA.created_at ∧
      r'.updated_at = recA.updated_at ∧ r'.object_key = recA.object_key ∧
      r'.mime = recA.mime ∧ r'.size_bytes = recA.size_bytes ∧
      r'.width = recA.width ∧ r'.height = recA.height ∧
      r'.rating = recA.rating ∧ r'.is_public = recA.is_public ∧
      r'.url = recA.url ∧ r'.urls = recA.urls ∧
      r'.exif.aperture = recA.exif.aperture ∧
      r'.exif.shutterSpeed = recA.exif.shutterSpeed ∧
      r'.exif.iso = recA.exif.iso ∧
      r'.exif.focalLength = recA.exif.focalLength ∧
      (uW.camera = none → r'.exif.camera = recA.exif.camera) ∧
      (∀ c, uW.camera = some c → r'.exif.camera = some c) ∧
      (uW.lens = none → r'.exif.lens = recA.exif.lens) ∧
      (∀ c, uW.lens = some c → r'.exif.lens = some c) ∧
      (uW.location = none → r'.exif.location = recA.exif.location) ∧
      (∀ c, uW.location = some c → r'.exif.location = some c) ∧
      (uW.date = none → r'.exif.date = recA.exif.date) ∧
      (∀ c, uW.date = some c → r'.exif.date = some c) ∧
      (uW.latitude = none → r'.exif.latitude = recA.exif.latitude) ∧
      (∀ c, uW.latitude = some c → r'.exif.latitude = some c) ∧
      (uW.longitude = none → r'.exif.longitude = recA.exif.longitude) ∧
      (∀ c, uW.longitude = some c → r'.exif.longitude = some c) :=
  ⟨by decide, by decide,
    c9_batch_frame kvAB uW "a" "data:456:a" recA (by decide) (by decide)⟩

/-- C3 (evaluation at the failing input): `onRequestDelete` does remove both
keys, but it deletes `lookup:a` FIRST and the primary key second; replaying
only the operations up to an interruption right after the first KV delete
leaves the primary record present in the store yet no longer addressable by
id — the opposite of the fail-toward-findable order the spec requires. -/
theorem c3_delete_order_at_failing_input :
    PhotoId.onRequestDelete "tok" (some ("Bearer " ++ "tok")) kvAB "a" =
      (.deleteOk,
        [.r2Del "photos/a.jpg", .kvDelOp "lookup:a", .kvDelOp "data:456:a"]) ∧
    kvGet (applyOps kvAB [.r2Del "photos/a.jpg", .kvDelOp "lookup:a"])
        (lookupKeyStr "a") = none ∧
    kvGet (applyOps kvAB [.r2Del "photos/a.jpg", .kvDelOp "lookup:a"])
        "data:456:a" = some (.vrec recA) := by
  refine ⟨?_, ?_, ?_⟩ <;> decide

/-! ### Characterization of the single-file edit path -/

/-- The record that `[id].ts` stores for a metadata-only edit of an existing
record: `created_at` and the file-derived fields come from the stored
record, everything else (including the whole `exif` object and the
description) is taken from the payload. -/
def editedMeta (meta : Meta) (i now : String) (old : PhotoRecord) : PhotoRecord :=
  { id := i, title := meta.title, description := meta.description.getD "",
    tags := [meta.category], created_at := old.created_at, updated_at := now,
    object_key := old.object_key, mime := old.mime,
    size_bytes := old.size_bytes, width := meta.width, height := meta.height,
    exif := meta.exif.getD {}, rating := meta.rating.getD 0, is_public := 1,
    url := old.url, urls := none }

/-- The record `[id].ts` stores for an edit that uploads a new file. -/
def editedFile (meta : Meta) (i baseUrl : String) (f : FileData)
    (now : String) (old : PhotoRecord) : PhotoRecord :=
  { id := i, title := meta.title, description := meta.description.getD "",
    tags := [meta.category], created_at := old.created_at, updated_at := now,
    object_key := "photos/" ++ i ++ ".jpg", mime := f.ftype,
    size_bytes := f.size, width := meta.width, height := meta.height,
    exif := meta.exif.getD {}, rating := meta.rating.getD 0, is_public := 1,
    url := baseUrl ++ "/" ++ ("photos/" ++ i ++ ".jpg"), urls := none }

theorem finishWrite_existing (kv : KV) (meta : Meta) (inv : Nat)
    (i url okey mt : String) (sz : Nat) (now : String) (ops0 : List Op)
    {d : String} {old : PhotoRecord}
    (hstr : kvGetStr kv (lookupKeyStr i) = some d)
    (hrec : kvGetRec kv d = some old) :
    PhotoId.onRequestPost.finishWrite kv meta true inv i url okey mt sz now
        ops0 =
      (.uploadOk i url, ops0 ++ [.kvPutOp d (.vrec
        { id := i, title := meta.title, description := meta.description.getD "",
          tags := [meta.category], created_at := old.created_at,
          updated_at := now, object_key := okey, mime := mt, size_bytes := sz,
          width := meta.width, height := meta.height,
          exif := meta.exif.getD {}, rating := meta.rating.getD 0,
          is_public := 1, url := url, urls := none })]) := by
  unfold PhotoId.onRequestPost.finishWrite
  simp [hstr, hrec]

/-- Full characterization of `[id].ts` `onRequestPost` on an edit whose id
resolves through the lookup index. -/
theorem editPhoto_existing_eq (token baseUrl : String) (kv : KV)
    (file : Option FileData) (meta : Meta) (genId now : String) (ts : Nat)
    {i d : String} {old : PhotoRecord}
    (hid : meta.id = some i) (hne : i ≠ "")
    (hlk : kvGet kv (lookupKeyStr i) = some (.vstr d))
    (hrec : kvGet kv d = some (.vrec old)) :
    PhotoId.onRequestPost token baseUrl (some ("Bearer " ++ token)) kv file
        (some meta) genId now ts =
      match file with
      | some f =>
        if f.size > 0 then
          (.uploadOk i (baseUrl ++ "/" ++ ("photos/" ++ i ++ ".jpg")),
            [.r2Put ("photos/" ++ i ++ ".jpg"),
             .kvPutOp d (.vrec (editedFile meta i baseUrl f now old))])
        else
          (.uploadOk i old.url, [.kvPutOp d (.vrec (editedMeta meta i now old))])
      | none =>
        (.uploadOk i old.url, [.kvPutOp d (.vrec (editedMeta meta i now old))]) := by
  have hstr : kvGetStr kv (lookupKeyStr i) = some d := by
    unfold kvGetStr
    rw [hlk]
  have hrec' : kvGetRec kv d = some old := by
    unfold kvGetRec
    rw [hrec]
  unfold PhotoId.onRequestPost
  cases file with
  | none =>
    simp [authOk, hid, hne, hstr, hrec',
      finishWrite_existing kv meta (invertTs ts) i old.url old.object_key
        old.mime old.size_bytes now [] hstr hrec', editedMeta]
  | some f =>
    by_cases hf : f.size > 0
    · simp [authOk, hid, hne, hf,
        finishWrite_existing kv meta (invertTs ts) i
          (baseUrl ++ "/" ++ ("photos/" ++ i ++ ".jpg"))
          ("photos/" ++ i ++ ".jpg") f.ftype f.size now
          [Op.r2Put ("photos/" ++ i ++ ".jpg")] hstr hrec', editedFile]
    · simp [authOk, hid, hne, hf, hstr, hrec',
        finishWrite_existing kv meta (invertTs ts) i old.url old.object_key
          old.mime old.size_bytes now [] hstr hrec', editedMeta]

theorem applyOps_append (kv : KV) (l1 l2 : List Op) :
    applyOps kv (l1 ++ l2) = applyOps (applyOps kv l1) l2 := by
  unfold applyOps
  exact List.foldl_append _ _ _ _

/-- The file-variant stage performs only R2 uploads: replaying its
operations leaves the KV store untouched. -/
theorem variantStage_kv (baseUrl photoId : String)
    (fs fm fl lf : Option FileData) (urls0 : Urls)
    (mainUrl0 objectKey0 : String) (sizeBytes0 : Nat) (kv : KV) :
    applyOps kv (Part004.variantStage baseUrl photoId fs fm fl lf urls0
      mainUrl0 objectKey0 sizeBytes0).2.2.2.2 = kv := by
  cases fs <;> cases fm <;> cases fl <;> cases lf <;> rfl

/-- The multi-variant handler on an edit whose id resolves through the
lookup index: whatever combination of size variants is uploaded, the write
goes to the existing primary key, `created_at` comes from the stored record
and `updated_at` is the edit time. -/
theorem part004_edit_existing (token baseUrl : String) (kv : KV)
    (fs fm fl lf : Option FileData) (meta : Meta) (genId now : String)
    (ts : Nat) {i d : String} {old : PhotoRecord}
    (hid : meta.id = some i) (hne : i ≠ "")
    (hlk : kvGet kv (lookupKeyStr i) = some (.vstr d))
    (hrec : kvGet kv d = some (.vrec old)) :
    Part004.onRequestPost token baseUrl (some ("Bearer " ++ token)) kv
        fs fm fl lf (some meta) genId now ts =
      match Part004.variantStage baseUrl i fs fm fl lf (old.urls.getD {})
          old.url old.object_key old.size_bytes with
      | (urls1, okey, sz, mainUrl, ops0) =>
        (.uploadOk2 i mainUrl (Part004.ensureUrls urls1 mainUrl),
          ops0 ++ [.kvPutOp d (.vrec (Part004.mkRec meta i now
            old.created_at okey sz mainUrl
            (Part004.ensureUrls urls1 mainUrl)))]) := by
  have hA : authOk (some ("Bearer " ++ token)) token = true := by
    simp [authOk]
  have hF : (i = "") = False := by
    simp [hne]
  have hstr : kvGetStr kv (lookupKeyStr i) = some d := by
    unfold kvGetStr
    rw [hlk]
  have hrec' : kvGetRec kv d = some old := by
    unfold kvGetRec
    rw [hrec]
  unfold Part004.onRequestPost
  rw [hA]
  try dsimp only
  rw [hid]
  try simp only [Option.getD_some]
  try simp only [ne_eq, hF, not_false_eq_true, not_true, eq_self_iff_true,
    ite_true, ite_false, hstr, hrec']
  try dsimp only [Option.bind, Option.map, Option.getD]
  try simp only [hrec']
  try dsimp only
  try rfl

theorem store_after_single_put (kv : KV) (d : String) (r : PhotoRecord)
    (ops0 : List Op) (h0 : applyOps kv ops0 = kv) :
    kvGet (applyOps kv (ops0 ++ [.kvPutOp d (.vrec r)])) d = some (.vrec r) ∧
    ∀ k, k ≠ d → kvGet (applyOps kv (ops0 ++ [.kvPutOp d (.vrec r)])) k =
      kvGet kv k := by
  rw [applyOps_append, h0]
  constructor
  · show kvGet (kvPut kv d (.vrec r)) d = _
    rw [kvGet_put, if_pos rfl]
  · intro k hk
    show kvGet (kvPut kv d (.vrec r)) k = _
    rw [kvGet_put, if_neg (fun hh => hk hh.symm)]

/-- C2: an edit of an existing record (id resolvable via its lookup key) —
through either the single-file handler or the multi-variant handler — is
written back under the same primary key it had before, with `created_at`
preserved from the stored record and `updated_at` set to the edit time; no
other key of the store changes, so the chronological position is unchanged. -/
theorem c2_edit_same_key_preserves_created_at (token baseUrl : String)
    (kv : KV) (meta : Meta) (genId now : String) (ts : Nat)
    (i d : String) (old : PhotoRecord)
    (hid : meta.id = some i) (hne : i ≠ "")
    (hlk : kvGet kv (lookupKeyStr i) = some (.vstr d))
    (hrec : kvGet kv d = some (.vrec old)) :
    (∀ file : Option FileData, ∃ url ops newRec,
      PhotoId.onRequestPost token baseUrl (some ("Bearer " ++ token)) kv file
          (some meta) genId now ts = (.uploadOk i url, ops) ∧
      kvGet (applyOps kv ops) d = some (.vrec newRec) ∧
      newRec.created_at = old.created_at ∧ newRec.updated_at = now ∧
      (∀ k, k ≠ d → kvGet (applyOps kv ops) k = kvGet kv k)) ∧
    (∀ fs fm fl lf : Option FileData, ∃ url us ops newRec,
      Part004.onRequestPost token baseUrl (some ("Bearer " ++ token)) kv
          fs fm fl lf (some meta) genId now ts = (.uploadOk2 i url us, ops) ∧
      kvGet (applyOps kv ops) d = some (.vrec newRec) ∧
      newRec.created_at = old.created_at ∧ newRec.updated_at = now ∧
      (∀ k, k ≠ d → kvGet (applyOps kv ops) k = kvGet kv k)) := by
  constructor
  · intro file
    rw [editPhoto_existing_eq token baseUrl kv file meta genId now ts hid hne
      hlk hrec]
    cases file with
    | none =>
      obtain ⟨h1, h2⟩ :=
        store_after_single_put kv d (editedMeta meta i now old) [] rfl
      exact ⟨old.url, _, _, rfl, h1, rfl, rfl, h2⟩
    | some f =>
      by_cases hf : f.size > 0
      · dsimp only
        rw [if_pos hf]
        obtain ⟨h1, h2⟩ := store_after_single_put kv d
          (editedFile meta i baseUrl f now old)
          [Op.r2Put ("photos/" ++ i ++ ".jpg")] rfl
        exact ⟨_, _, _, rfl, h1, rfl, rfl, h2⟩
      · dsimp only
        rw [if_neg hf]
        obtain ⟨h1, h2⟩ :=
          store_after_single_put kv d (editedMeta meta i now old) [] rfl
        exact ⟨old.url, _, _, rfl, h1, rfl, rfl, h2⟩
  · intro fs fm fl lf
    rw [part004_edit_existing token baseUrl kv fs fm fl lf meta genId now ts
      hid hne hlk hrec]
    have hkv0 := variantStage_kv baseUrl i fs fm fl lf (old.urls.getD {})
      old.url old.object_key old.size_bytes kv
    rcases hV : Part004.variantStage baseUrl i fs fm fl lf (old.urls.getD {})
      old.url old.object_key old.size_bytes with ⟨u1, okey, sz, mu, ops0⟩
    rw [hV] at hkv0
    simp only at hkv0
    obtain ⟨h1, h2⟩ := store_after_single_put kv d
      (Part004.mkRec meta i now old.created_at okey sz mu
        (Part004.ensureUrls u1 mu)) ops0 hkv0
    exact ⟨mu, _, _, _, rfl, h1, rfl, rfl, h2⟩

/-- Edit payload used by concrete edit scenarios (no description, no exif
date/location; exif only carries a camera). -/
def metaW : Meta :=
  { id := some "a", title := some "A2", category := "风光",
    width := some 40, height := some 30,
    exif := some { camera := some "Nikon Zf" }, rating := some 3 }

/-- Witness for C2: concrete metadata-only edit (and multi-variant edit) of
record `a` in the two-record store. -/
theorem c2_edit_same_key_preserves_created_at_witness :
    metaW.id = some "a" ∧ ("a" : String) ≠ "" ∧
    kvGet kvAB (lookupKeyStr "a") = some (.vstr "data:456:a") ∧
    kvGet kvAB "data:456:a" = some (.vrec recA) ∧
    ((∀ file : Option FileData, ∃ url ops newRec,
      PhotoId.onRequestPost "tok" "https://img.example"
          (some ("Bearer " ++ "tok")) kvAB file (some metaW) "gen"
          "2024-06-01T00:00:00.000Z" 1700000000000 = (.uploadOk "a" url, ops) ∧
      kvGet (applyOps kvAB ops) "data:456:a" = some (.vrec newRec) ∧
      newRec.created_at = recA.created_at ∧
      newRec.updated_at = "2024-06-01T00:00:00.000Z" ∧
      (∀ k, k ≠ "data:456:a" →
        kvGet (applyOps kvAB ops) k = kvGet kvAB k)) ∧
    (∀ fs fm fl lf : Option FileData, ∃ url us ops newRec,
      Part004.onRequestPost "tok" "https://img.example"
          (some ("Bearer " ++ "tok")) kvAB fs fm fl lf (some metaW) "gen"
          "2024-06-01T00:00:00.000Z" 1700000000000 =
        (.uploadOk2 "a" url us, ops) ∧
      kvGet (applyOps kvAB ops) "data:456:a" = some (.vrec newRec) ∧
      newRec.created_at = recA.created_at ∧
      newRec.updated_at = "2024-06-01T00:00:00.000Z" ∧
      (∀ k, k ≠ "data:456:a" →
        kvGet (applyOps kvAB ops) k = kvGet kvAB k))) :=
  ⟨rfl, by decide, by decide, by decide,
    c2_edit_same_key_preserves_created_at "tok" "https://img.example" kvAB
      metaW "gen" "2024-06-01T00:00:00.000Z" 1700000000000 "a" "data:456:a"
      recA rfl (by decide) (by decide) (by decide)⟩

/-- C7 counterexample: editing record `a` (stored lens "Summilux 35",
description "old words") with a payload that carries no lens and no
description produces a stored record whose lens is gone and whose
description is empty — fields absent from the update payload are NOT
retained, because `[id].ts` builds `exif: meta.exif || {}` and
`description: meta.description || ''` (replace, not merge). -/
theorem c7_merge_semantics_counterexample :
    recA.exif.lens = some "Summilux 35" ∧ recA.description = "old words" ∧
    metaW.exif = some { camera := some "Nikon Zf" } ∧
    metaW.description = none ∧
    PhotoId.onRequestPost "tok" "https://img.example"
        (some ("Bearer " ++ "tok")) kvAB none (some metaW) "gen"
        "2024-06-01T00:00:00.000Z" 1700000000000 =
      (.uploadOk "a" recA.url,
        [.kvPutOp "data:456:a" (.vrec (editedMeta metaW "a"
          "2024-06-01T00:00:00.000Z" recA))]) ∧
    (editedMeta metaW "a" "2024-06-01T00:00:00.000Z" recA).exif.lens = none ∧
    (editedMeta metaW "a" "2024-06-01T00:00:00.000Z" recA).description = "" :=
  ⟨rfl, rfl, rfl, rfl, by decide, by decide, by decide⟩

/-- C7 amended: the edit handlers use replace semantics for the metadata
fields, not merge semantics.  Only `created_at` and the file-derived fields
(`url`, `object_key`, `mime`, `size_bytes`) are preserved from the stored
record; `title`, `tags`, `width`, `height`, `rating` come from the payload,
`description` is reset to the payload value (or empty), and the whole
`exif` substructure is replaced by the payload's exif (or the empty
object).  The multi-variant handler behaves the same way. -/
theorem c7_amended_edit_replace_semantics (token baseUrl : String) (kv : KV)
    (meta : Meta) (genId now : String) (ts : Nat) (i d : String)
    (old : PhotoRecord) (hid : meta.id = some i) (hne : i ≠ "")
    (hlk : kvGet kv (lookupKeyStr i) = some (.vstr d))
    (hrec : kvGet kv d = some (.vrec old)) :
    (∀ file : Option FileData,
      (file = none ∨ ∃ f, file = some f ∧ ¬ f.size > 0) →
      PhotoId.onRequestPost token baseUrl (some ("Bearer " ++ token)) kv file
          (some meta) genId now ts =
        (.uploadOk i old.url,
          [.kvPutOp d (.vrec (editedMeta meta i now old))])) ∧
    (∀ f : FileData, f.size > 0 →
      PhotoId.onRequestPost token baseUrl (some ("Bearer " ++ token)) kv
          (some f) (some meta) genId now ts =
        (.uploadOk i (baseUrl ++ "/" ++ ("photos/" ++ i ++ ".jpg")),
          [.r2Put ("photos/" ++ i ++ ".jpg"),
           .kvPutOp d (.vrec (editedFile meta i baseUrl f now old))])) ∧
    (∀ fs fm fl lf : Option FileData, ∃ url us ops newRec,
      Part004.onRequestPost token baseUrl (some ("Bearer " ++ token)) kv
          fs fm fl lf (some meta) genId now ts =
        (.uploadOk2 i url us, ops) ∧
      kvGet (applyOps kv ops) d = some (.vrec newRec) ∧
      newRec.exif = meta.exif.getD {} ∧
      newRec.description = meta.description.getD "" ∧
      newRec.created_at = old.created_at) := by
  refine ⟨?_, ?_, ?_⟩
  · intro file hfile
    rw [editPhoto_existing_eq token baseUrl kv file meta genId now ts hid hne
      hlk hrec]
    rcases hfile with rfl | ⟨f, rfl, hf⟩
    · rfl
    · dsimp only
      rw [if_neg hf]
  · intro f hf
    rw [editPhoto_existing_eq token baseUrl kv (some f) meta genId now ts hid
      hne hlk hrec]
    dsimp only
    rw [if_pos hf]
  · intro fs fm fl lf
    rw [part004_edit_existing token baseUrl kv fs fm fl lf meta genId now ts
      hid hne hlk hrec]
    have hkv0 := variantStage_kv baseUrl i fs fm fl lf (old.urls.getD {})
      old.url old.object_key old.size_bytes kv
    rcases hV : Part004.variantStage baseUrl i fs fm fl lf (old.urls.getD {})
      old.url old.object_key old.size_bytes with ⟨u1, okey, sz, mu, ops0⟩
    rw [hV] at hkv0
    simp only at hkv0
    obtain ⟨h1, _⟩ := store_after_single_put kv d
      (Part004.mkRec meta i now old.created_at okey sz mu
        (Part004.ensureUrls u1 mu)) ops0 hkv0
    exact ⟨mu, _, _, _, rfl, h1, rfl, rfl, rfl⟩

/-- Witness for the amended C7 at the concrete store: the metadata-only
edit stores exactly `editedMeta`, whose exif is the payload's exif. -/
theorem c7_amended_edit_replace_semantics_witness :
    metaW.id = some "a" ∧ ("a" : String) ≠ "" ∧
    kvGet kvAB (lookupKeyStr "a") = some (.vstr "data:456:a") ∧
    kvGet kvAB "data:456:a" = some (.vrec recA) ∧
    ((∀ file : Option FileData,
      (file = none ∨ ∃ f, file = some f ∧ ¬ f.size > 0) →
      PhotoId.onRequestPost "tok" "https://img.example"
          (some ("Bearer " ++ "tok")) kvAB file (some metaW) "gen"
          "2024-06-01T00:00:00.000Z" 1700000000000 =
        (.uploadOk "a" recA.url,
          [.kvPutOp "data:456:a" (.vrec (editedMeta metaW "a"
            "2024-06-01T00:00:00.000Z" recA))])) ∧
    (∀ f : FileData, f.size > 0 →
      PhotoId.onRequestPost "tok" "https://img.example"
          (some ("Bearer " ++ "tok")) kvAB (some f) (some metaW) "gen"
          "2024-06-01T00:00:00.000Z" 1700000000000 =
        (.uploadOk "a" ("https://img.example" ++ "/" ++
            ("photos/" ++ "a" ++ ".jpg")),
          [.r2Put ("photos/" ++ "a" ++ ".jpg"),
           .kvPutOp "data:456:a" (.vrec (editedFile metaW "a"
             "https://img.example" f "2024-06-01T00:00:00.000Z" recA))])) ∧
    (∀ fs fm fl lf : Option FileData, ∃ url us ops newRec,
      Part004.onRequestPost "tok" "https://img.example"
          (some ("Bearer " ++ "tok")) kvAB fs fm fl lf (some metaW) "gen"
          "2024-06-01T00:00:00.000Z" 1700000000000 =
        (.uploadOk2 "a" url us, ops) ∧
      kvGet (applyOps kvAB ops) "data:456:a" = some (.vrec newRec) ∧
      newRec.exif = metaW.exif.getD {} ∧
      newRec.description = metaW.description.getD "" ∧
      newRec.created_at = recA.created_at)) :=
  ⟨rfl, by decide, by decide, by decide,
    c7_amended_edit_replace_semantics "tok" "https://img.example" kvAB metaW
      "gen" "2024-06-01T00:00:00.000Z" 1700000000000 "a" "data:456:a" recA
      rfl (by decide) (by decide) (by decide)⟩

/-- The record silently created by `[id].ts` when an edit with a new file
has no lookup entry (note `created_at` stays `undefined`, the JS artifact
of `created_at: isEdit ? undefined : now`). -/
def silentRec (meta : Meta) (i baseUrl : String) (f : FileData)
    (now : String) : PhotoRecord :=
  { id := i, title := meta.title, description := meta.description.getD "",
    tags := [meta.category], created_at := none, updated_at := now,
    object_key := "photos/" ++ i ++ ".jpg", mime := f.ftype,
    size_bytes := f.size, width := meta.width, height := meta.height,
    exif := meta.exif.getD {}, rating := meta.rating.getD 0, is_public := 1,
    url := baseUrl ++ "/" ++ ("photos/" ++ i ++ ".jpg"), urls := none }

theorem finishWrite_missing (kv : KV) (meta : Meta) (inv : Nat)
    (i url okey mt : String) (sz : Nat) (now : String) (ops0 : List Op)
    (hstr : kvGetStr kv (lookupKeyStr i) = none) :
    PhotoId.onRequestPost.finishWrite kv meta true inv i url okey mt sz now
        ops0 =
      (.uploadOk i url,
        ops0 ++ [.kvPutOp (lookupKeyStr i) (.vstr (dataKeyStr inv i)),
          .kvPutOp (dataKeyStr inv i) (.vrec
            { id := i, title := meta.title,
              description := meta.description.getD "",
              tags := [meta.category], created_at := none, updated_at := now,
              object_key := okey, mime := mt, size_bytes := sz,
              width := meta.width, height := meta.height,
              exif := meta.exif.getD {}, rating := meta.rating.getD 0,
              is_public := 1, url := url, urls := none })]) := by
  unfold PhotoId.onRequestPost.finishWrite
  simp [hstr]

/-- Behaviour of the `[id].ts` `onRequestPost` on an edit whose id has NO lookup entry:
metadata-only requests 404 with no writes, but a request carrying a
non-empty file silently creates both keys. -/
theorem editPhoto_missing_eq (token baseUrl : String) (kv : KV)
    (file : Option FileData) (meta : Meta) (genId now : String) (ts : Nat)
    {i : String} (hid : meta.id = some i) (hne : i ≠ "")
    (hlk : kvGet kv (lookupKeyStr i) = none) :
    PhotoId.onRequestPost token baseUrl (some ("Bearer " ++ token)) kv file
        (some meta) genId now ts =
      match file with
      | some f =>
        if f.size > 0 then
          (.uploadOk i (baseUrl ++ "/" ++ ("photos/" ++ i ++ ".jpg")),
            [.r2Put ("photos/" ++ i ++ ".jpg"),
             .kvPutOp (lookupKeyStr i) (.vstr (dataKeyStr (invertTs ts) i)),
             .kvPutOp (dataKeyStr (invertTs ts) i)
               (.vrec (silentRec meta i baseUrl f now))])
        else (.notFound, [])
      | none => (.notFound, []) := by
  have hstr : kvGetStr kv (lookupKeyStr i) = none := by
    unfold kvGetStr
    rw [hlk]
  unfold PhotoId.onRequestPost
  cases file with
  | none => simp [authOk, hid, hne, hstr]
  | some f =>
    by_cases hf : f.size > 0
    · simp [authOk, hid, hne, hf,
        finishWrite_missing kv meta (invertTs ts) i
          (baseUrl ++ "/" ++ ("photos/" ++ i ++ ".jpg"))
          ("photos/" ++ i ++ ".jpg") f.ftype f.size now
          [Op.r2Put ("photos/" ++ i ++ ".jpg")] hstr, silentRec]
    · simp [authOk, hid, hne, hf, hstr]

/-- The multi-variant handler on an edit whose id has no lookup entry: it
never 404s — it silently creates the lookup and primary records (with
`created_at` freshly set to the request time). -/
theorem part004_missing_eq (token baseUrl : String) (kv : KV)
    (fs fm fl lf : Option FileData) (meta : Meta) (genId now : String)
    (ts : Nat) {i : String} (hid : meta.id = some i) (hne : i ≠ "")
    (hlk : kvGet kv (lookupKeyStr i) = none) :
    Part004.onRequestPost token baseUrl (some ("Bearer " ++ token)) kv
        fs fm fl lf (some meta) genId now ts =
      match Part004.variantStage baseUrl i fs fm fl lf {} "" "" 0 with
      | (urls1, okey, sz, mainUrl, ops0) =>
        (.uploadOk2 i mainUrl (Part004.ensureUrls urls1 mainUrl),
          ops0 ++ [.kvPutOp (lookupKeyStr i)
              (.vstr (dataKeyStr (invertTs ts) i)),
            .kvPutOp (dataKeyStr (invertTs ts) i) (.vrec (Part004.mkRec meta
              i now (some now) okey sz mainUrl
              (Part004.ensureUrls urls1 mainUrl)))]) := by
  have hA : authOk (some ("Bearer " ++ token)) token = true := by
    simp [authOk]
  have hF : (i = "") = False := by
    simp [hne]
  have hstr : kvGetStr kv (lookupKeyStr i) = none := by
    unfold kvGetStr
    rw [hlk]
  unfold Part004.onRequestPost
  rw [hA]
  try dsimp only
  rw [hid]
  try simp only [Option.getD_some]
  try simp only [ne_eq, hF, not_false_eq_true, not_true, eq_self_iff_true,
    ite_true, ite_false, hstr]
  try dsimp only [Option.bind, Option.map, Option.getD]
  try dsimp only
  try rfl

theorem store_after_create (kv : KV) (i : String) (n : Nat) (r : PhotoRecord)
    (ops0 : List Op) (h0 : applyOps kv ops0 = kv) :
    kvGet (applyOps kv (ops0 ++
        [.kvPutOp (lookupKeyStr i) (.vstr (dataKeyStr n i)),
         .kvPutOp (dataKeyStr n i) (.vrec r)])) (lookupKeyStr i) =
      some (.vstr (dataKeyStr n i)) ∧
    kvGet (applyOps kv (ops0 ++
        [.kvPutOp (lookupKeyStr i) (.vstr (dataKeyStr n i)),
         .kvPutOp (dataKeyStr n i) (.vrec r)])) (dataKeyStr n i) =
      some (.vrec r) := by
  rw [applyOps_append, h0]
  have hne := lookupKeyStr_ne_dataKeyStr i n i
  constructor
  · show kvGet (kvPut (kvPut kv (lookupKeyStr i) _) (dataKeyStr n i) _)
      (lookupKeyStr i) = _
    rw [kvGet_put, if_neg (fun hh => hne hh.symm), kvGet_put, if_pos rfl]
  · show kvGet (kvPut (kvPut kv (lookupKeyStr i) _) (dataKeyStr n i) _)
      (dataKeyStr n i) = _
    rw [kvGet_put, if_pos rfl]

/-- C6 counterexample: id "c" has no lookup entry in the store, yet an edit
request that carries a new file does not 404 — it silently creates the
lookup entry and a primary record for "c".  (The claim asserts NotFound
"regardless of whether the edit request includes a new file".) -/
theorem c6_never_create_counterexample :
    kvGet kvAB (lookupKeyStr "c") = none ∧
    (some "c" : Option String).isSome ∧
    PhotoId.onRequestPost "tok" "https://img.example"
        (some ("Bearer " ++ "tok")) kvAB
        (some { ftype := "image/jpeg", size := 5 })
        (some { id := some "c", title := some "C", category := "人文" })
        "gen" "2024-06-01T00:00:00.000Z" 1700000000000 ≠ (.notFound, []) ∧
    kvGet (applyOps kvAB (PhotoId.onRequestPost "tok" "https://img.example"
        (some ("Bearer " ++ "tok")) kvAB
        (some { ftype := "image/jpeg", size := 5 })
        (some { id := some "c", title := some "C", category := "人文" })
        "gen" "2024-06-01T00:00:00.000Z" 1700000000000).2)
      (lookupKeyStr "c") = some (.vstr "data:8299999999999:c") ∧
    (kvGetRec (applyOps kvAB (PhotoId.onRequestPost "tok"
        "https://img.example" (some ("Bearer " ++ "tok")) kvAB
        (some { ftype := "image/jpeg", size := 5 })
        (some { id := some "c", title := some "C", category := "人文" })
        "gen" "2024-06-01T00:00:00.000Z" 1700000000000).2)
      "data:8299999999999:c").isSome := by
  refine ⟨by decide, by decide, by decide, by decide, by decide⟩

/-- C6 amended: with no lookup entry for the id, only a metadata-only edit
through the single-file handler fails with 404 (and performs no writes); an
edit that includes a non-empty file silently creates the lookup entry and a
primary record under a fresh timestamp key, and the multi-variant handler
silently creates in every case. -/
theorem c6_amended_notfound_only_metadata_edits (token baseUrl : String)
    (kv : KV) (meta : Meta) (genId now : String) (ts : Nat) (i : String)
    (hid : meta.id = some i) (hne : i ≠ "")
    (hlk : kvGet kv (lookupKeyStr i) = none) :
    (∀ file : Option FileData,
      (file = none ∨ ∃ f, file = some f ∧ ¬ f.size > 0) →
      PhotoId.onRequestPost token baseUrl (some ("Bearer " ++ token)) kv file
          (some meta) genId now ts = (.notFound, [])) ∧
    (∀ f : FileData, f.size > 0 → ∃ url ops,
      PhotoId.onRequestPost token baseUrl (some ("Bearer " ++ token)) kv
          (some f) (some meta) genId now ts = (.uploadOk i url, ops) ∧
      kvGet (applyOps kv ops) (lookupKeyStr i) =
        some (.vstr (dataKeyStr (invertTs ts) i)) ∧
      ∃ r, kvGet (applyOps kv ops) (dataKeyStr (invertTs ts) i) =
          some (.vrec r) ∧ r.id = i ∧ r.created_at = none) ∧
    (∀ fs fm fl lf : Option FileData, ∃ url us ops,
      Part004.onRequestPost token baseUrl (some ("Bearer " ++ token)) kv
          fs fm fl lf (some meta) genId now ts = (.uploadOk2 i url us, ops) ∧
      kvGet (applyOps kv ops) (lookupKeyStr i) =
        some (.vstr (dataKeyStr (invertTs ts) i)) ∧
      ∃ r, kvGet (applyOps kv ops) (dataKeyStr (invertTs ts) i) =
          some (.vrec r) ∧ r.id = i) := by
  refine ⟨?_, ?_, ?_⟩
  · intro file hfile
    rw [editPhoto_missing_eq token baseUrl kv file meta genId now ts hid hne
      hlk]
    rcases hfile with rfl | ⟨f, rfl, hf⟩
    · rfl
    · dsimp only
      rw [if_neg hf]
  · intro f hf
    rw [editPhoto_missing_eq token baseUrl kv (some f) meta genId now ts hid
      hne hlk]
    dsimp only
    rw [if_pos hf]
    obtain ⟨h1, h2⟩ := store_after_create kv i (invertTs ts)
      (silentRec meta i baseUrl f now) [Op.r2Put ("photos/" ++ i ++ ".jpg")]
      rfl
    exact ⟨_, _, rfl, h1, _, h2, rfl, rfl⟩
  · intro fs fm fl lf
    rw [part004_missing_eq token baseUrl kv fs fm fl lf meta genId now ts hid
      hne hlk]
    have hkv0 := variantStage_kv baseUrl i fs fm fl lf {} "" "" 0 kv
    rcases hV : Part004.variantStage baseUrl i fs fm fl lf {} "" "" 0 with
      ⟨u1, okey, sz, mu, ops0⟩
    rw [hV] at hkv0
    simp only at hkv0
    obtain ⟨h1, h2⟩ := store_after_create kv i (invertTs ts)
      (Part004.mkRec meta i now (some now) okey sz mu
        (Part004.ensureUrls u1 mu)) ops0 hkv0
    exact ⟨_, _, _, rfl, h1, _, h2, rfl⟩

/-- Witness for the amended C6 at the concrete store (id "c" absent). -/
theorem c6_amended_notfound_only_metadata_edits_witness :
    (some "c" : Option String) = some "c" ∧ ("c" : String) ≠ "" ∧
    kvGet kvAB (lookupKeyStr "c") = none ∧
    ((∀ file : Option FileData,
      (file = none ∨ ∃ f, file = some f ∧ ¬ f.size > 0) →
      PhotoId.onRequestPost "tok" "https://img.example"
          (some ("Bearer " ++ "tok")) kvAB file
          (some { id := some "c", title := some "C", category := "人文" })
          "gen" "2024-06-01T00:00:00.000Z" 1700000000000 =
        (.notFound, [])) ∧
    (∀ f : FileData, f.size > 0 → ∃ url ops,
      PhotoId.onRequestPost "tok" "https://img.example"
          (some ("Bearer " ++ "tok")) kvAB (some f)
          (some { id := some "c", title := some "C", category := "人文" })
          "gen" "2024-06-01T00:00:00.000Z" 1700000000000 =
        (.uploadOk "c" url, ops) ∧
      kvGet (applyOps kvAB ops) (lookupKeyStr "c") =
        some (.vstr (dataKeyStr (invertTs 1700000000000) "c")) ∧
      ∃ r, kvGet (applyOps kvAB ops)
          (dataKeyStr (invertTs 1700000000000) "c") = some (.vrec r) ∧
        r.id = "c" ∧ r.created_at = none) ∧
    (∀ fs fm fl lf : Option FileData, ∃ url us ops,
      Part004.onRequestPost "tok" "https://img.example"
          (some ("Bearer " ++ "tok")) kvAB fs fm fl lf
          (some { id := some "c", title := some "C", category := "人文" })
          "gen" "2024-06-01T00:00:00.000Z" 1700000000000 =
        (.uploadOk2 "c" url us, ops) ∧
      kvGet (applyOps kvAB ops) (lookupKeyStr "c") =
        some (.vstr (dataKeyStr (invertTs 1700000000000) "c")) ∧
      ∃ r, kvGet (applyOps kvAB ops)
          (dataKeyStr (invertTs 1700000000000) "c") = some (.vrec r) ∧
        r.id = "c")) :=
  ⟨rfl, by decide, by decide,
    c6_amended_notfound_only_metadata_edits "tok" "https://img.example" kvAB
      { id := some "c", title := some "C", category := "人文" } "gen"
      "2024-06-01T00:00:00.000Z" 1700000000000 "c" rfl (by decide)
      (by decide)⟩

/-- C5 counterexample: at t1 = 9999999999989 < t2 = 9999999999990 the
inverted values (10 and 9) are both positive, yet the inverted string of
the NEWER timestamp ("9") is lexicographically GREATER than that of the
older one ("10"), the full data keys compare the same wrong way, and a
store holding the two records lists the older one first.  Lexicographic
descent fails once the inverted value loses a decimal digit (from year
~2255 on), well before `CEIL - t` goes negative in 2286. -/
theorem c5_inversion_counterexample :
    (9999999999989 : Nat) < 9999999999990 ∧
    0 < (9999999999999 : Nat) - 9999999999990 ∧
    keyLt (Nat.repr (invertTs 9999999999990))
      (Nat.repr (invertTs 9999999999989)) = false ∧
    keyLt (Nat.repr (invertTs 9999999999989))
      (Nat.repr (invertTs 9999999999990)) = true ∧
    keyLt (dataKeyStr (invertTs 9999999999990) "newer")
      (dataKeyStr (invertTs 9999999999989) "older") = false ∧
    kvList [(dataKeyStr (invertTs 9999999999989) "older", .vrec recA),
        (dataKeyStr (invertTs 9999999999990) "newer", .vrec recB)]
        "data:" 1000 =
      [dataKeyStr (invertTs 9999999999989) "older",
       dataKeyStr (invertTs 9999999999990) "newer"] :=
  ⟨by decide, by decide, by decide, by decide, by decide, by decide⟩

/-- C5 amended: for t1 < t2 (with `CEIL - t2` still non-negative) whose
inverted values print with the SAME number of decimal digits — true
throughout 2001–2255, where the inverted value has exactly 13 digits — the
inverted string of t2 is lexicographically smaller than that of t1, and so
is the full data key whatever the record ids are; an ascending key scan
therefore yields newest-first order in that range. -/
theorem c5_amended_inverted_key_order (t1 t2 : Nat) (i1 i2 : String)
    (h12 : t1 < t2) (h2 : t2 ≤ 9999999999999)
    (hlen : (Nat.repr (invertTs t1)).length =
      (Nat.repr (invertTs t2)).length) :
    keyLt (Nat.repr (invertTs t2)) (Nat.repr (invertTs t1)) = true ∧
    keyLt (dataKeyStr (invertTs t2) i2) (dataKeyStr (invertTs t1) i1) =
      true := by
  have hab : invertTs t2 < invertTs t1 := by
    unfold invertTs
    omega
  have hlen' : (decChars (invertTs t2)).length =
      (decChars (invertTs t1)).length := by
    have e1 : (Nat.repr (invertTs t1)).length =
        (decChars (invertTs t1)).length := congrArg List.length
      (Nat_repr_data (invertTs t1))
    have e2 : (Nat.repr (invertTs t2)).length =
        (decChars (invertTs t2)).length := congrArg List.length
      (Nat_repr_data (invertTs t2))
    rw [← e1, ← e2, hlen]
  constructor
  · unfold keyLt
    rw [Nat_repr_data, Nat_repr_data]
    exact clLt_decChars hab hlen'
  · exact keyLt_dataKeyStr i2 i1 hab hlen'

/-- Witness for the amended C5 at two adjacent 2023 timestamps (both
inverted values have 13 digits). -/
theorem c5_amended_inverted_key_order_witness :
    (1700000000000 : Nat) < 1700000000001 ∧
    (1700000000001 : Nat) ≤ 9999999999999 ∧
    (Nat.repr (invertTs 1700000000000)).length =
      (Nat.repr (invertTs 1700000000001)).length ∧
    (keyLt (Nat.repr (invertTs 1700000000001))
      (Nat.repr (invertTs 1700000000000)) = true ∧
    keyLt (dataKeyStr (invertTs 1700000000001) "newer")
      (dataKeyStr (invertTs 1700000000000) "older") = true) :=
  ⟨by decide, by decide, by decide,
    c5_amended_inverted_key_order 1700000000000 1700000000001 "older" "newer"
      (by decide) (by decide) (by decide)⟩

/-- The items list of a response (empty for non-page responses). -/
def itemsOf : HResp → List ListItem
  | .pageOk l => l
  | _ => []

theorem photosIndex_page (kv : KV) (S p : Nat)
    (hstart : p * S < (kvList kv "data:" 1000).length) :
    PhotosIndex.onRequestGet kv (p + 1) S =
      .pageOk (((((kvList kv "data:" 1000).drop (p * S)).take S).filterMap
        (kvGetRec kv)).map mapItem) := by
  unfold PhotosIndex.onRequestGet
  have hmax : max (p + 1) 1 = p + 1 :=
    Nat.max_eq_left (Nat.succ_le_succ (Nat.zero_le p))
  rw [hmax]
  simp only [Nat.add_sub_cancel]
  rw [if_neg (Nat.not_le.mpr hstart)]
  rw [List.filterMap_map]
  rfl

theorem photosIndex_empty (kv : KV) (S page : Nat) (h1 : 1 ≤ page)
    (h : (kvList kv "data:" 1000).length ≤ (page - 1) * S) :
    PhotosIndex.onRequestGet kv page S = .pageOk [] := by
  unfold PhotosIndex.onRequestGet
  rw [Nat.max_eq_left h1]
  rw [if_pos h]

/-- C4: pagination completeness and boundary.  With N ≤ 1000 stored records
and any page size S > 0: the full scan is sorted ascending and
duplicate-free, it contains every data key (no omissions), every scanned
key yields an item (nothing dropped), concatenating the items of pages
1..ceil(N/S) reproduces exactly the items of the full scan in order, and
any page whose start offset is at or past the end returns an empty items
list (the normal end-of-feed condition), not an error. -/
theorem c4_pagination_complete (kv : KV) (S : Nat) (hS : 0 < S) (hWF : WF kv)
    (hnd : (kv.map Prod.fst).Nodup)
    (hN : ((kv.filter (fun p => clPre "data:".data p.1.data)).map
      Prod.fst).length ≤ 1000) :
    (kvList kv "data:" 1000).Pairwise keyOrd ∧
    (kvList kv "data:" 1000).Nodup ∧
    (∀ k v, (k, v) ∈ kv → clPre "data:".data k.data = true →
      k ∈ kvList kv "data:" 1000) ∧
    (∀ k ∈ kvList kv "data:" 1000, ∃ r, kvGetRec kv k = some r) ∧
    ((List.range (((kvList kv "data:" 1000).length + S - 1) / S)).map
        (fun p => itemsOf (PhotosIndex.onRequestGet kv (p + 1) S))).flatten =
      ((kvList kv "data:" 1000).filterMap (kvGetRec kv)).map mapItem ∧
    (∀ page, 1 ≤ page →
      (kvList kv "data:" 1000).length ≤ (page - 1) * S →
      PhotosIndex.onRequestGet kv page S = .pageOk []) := by
  refine ⟨kvList_sorted kv "data:" 1000, kvList_nodup "data:" 1000 hnd,
    fun k v hkv hpre => kvList_complete hN hkv hpre, ?_, ?_, ?_⟩
  · intro k hk
    obtain ⟨v, hkv, hpre⟩ := kvList_mem hk
    have hget : kvGet kv k = some v := kvGet_of_mem_nodup hnd hkv
    obtain ⟨r, n, hv, _, _⟩ := hWF.data_side k v hget hpre
    refine ⟨r, ?_⟩
    unfold kvGetRec
    rw [hget, hv]
  · have hpages : ∀ p ∈ List.range
        (((kvList kv "data:" 1000).length + S - 1) / S),
        itemsOf (PhotosIndex.onRequestGet kv (p + 1) S) =
          ((((kvList kv "data:" 1000).drop (p * S)).take S).filterMap
            (kvGetRec kv)).map mapItem := by
      intro p hp
      have hlt : p * S < (kvList kv "data:" 1000).length :=
        page_start_lt hS (List.mem_range.mp hp)
      rw [photosIndex_page kv S p hlt]
      rfl
    rw [List.map_congr_left hpages]
    have hcomp : (List.range (((kvList kv "data:" 1000).length + S - 1) / S)).map
        (fun p => ((((kvList kv "data:" 1000).drop (p * S)).take S).filterMap
          (kvGetRec kv)).map mapItem) =
      ((List.range (((kvList kv "data:" 1000).length + S - 1) / S)).map
        (fun p => ((kvList kv "data:" 1000).drop (p * S)).take S)).map
        (fun x => (x.filterMap (kvGetRec kv)).map mapItem) := by
      rw [List.map_map]
      rfl
    rw [hcomp, flatten_map_filterMap, flatten_slices]
    rw [List.take_of_length_le (pages_mul_ge _ S hS)]
  · intro page h1 h
    exact photosIndex_empty kv S page h1 h


/-- The concrete two-record store satisfies the two-key invariant. -/
theorem wf_kvAB : WF kvAB := by
  constructor
  · intro k v hget hpre
    have hm := kvGet_mem hget
    simp only [kvAB, List.mem_cons, List.not_mem_nil, or_false,
      Prod.mk.injEq] at hm
    rcases hm with ⟨rfl, rfl⟩ | ⟨rfl, rfl⟩ | ⟨rfl, rfl⟩ | ⟨rfl, rfl⟩
    · exact ⟨recB, 123, rfl, by decide, by decide⟩
    · exact absurd hpre (by decide)
    · exact ⟨recA, 456, rfl, by decide, by decide⟩
    · exact absurd hpre (by decide)
  · intro k v hget hpre
    have hm := kvGet_mem hget
    simp only [kvAB, List.mem_cons, List.not_mem_nil, or_false,
      Prod.mk.injEq] at hm
    rcases hm with ⟨rfl, rfl⟩ | ⟨rfl, rfl⟩ | ⟨rfl, rfl⟩ | ⟨rfl, rfl⟩
    · exact absurd hpre (by decide)
    · exact ⟨"data:123:b", recB, rfl, by decide, by decide, by decide⟩
    · exact absurd hpre (by decide)
    · exact ⟨"data:456:a", recA, rfl, by decide, by decide, by decide⟩

/-- Witness for C4 on the two-record store with page size 1: two pages of
one item each, and page 3 is the empty end-of-feed page. -/
theorem c4_pagination_complete_witness :
    0 < 1 ∧ (kvAB.map Prod.fst).Nodup ∧
    ((kvAB.filter (fun p => clPre "data:".data p.1.data)).map
      Prod.fst).length ≤ 1000 ∧
    ((kvList kvAB "data:" 1000).Pairwise keyOrd ∧
    (kvList kvAB "data:" 1000).Nodup ∧
    (∀ k v, (k, v) ∈ kvAB → clPre "data:".data k.data = true →
      k ∈ kvList kvAB "data:" 1000) ∧
    (∀ k ∈ kvList kvAB "data:" 1000, ∃ r, kvGetRec kvAB k = some r) ∧
    ((List.range (((kvList kvAB "data:" 1000).length + 1 - 1) / 1)).map
        (fun p => itemsOf (PhotosIndex.onRequestGet kvAB (p + 1) 1))).flatten =
      ((kvList kvAB "data:" 1000).filterMap (kvGetRec kvAB)).map mapItem ∧
    (∀ page, 1 ≤ page →
      (kvList kvAB "data:" 1000).length ≤ (page - 1) * 1 →
      PhotosIndex.onRequestGet kvAB page 1 = .pageOk [])) :=
  ⟨by decide, by decide, by decide,
    c4_pagination_complete kvAB 1 (by decide) wf_kvAB (by decide) (by decide)⟩

theorem kvGetStr_some {kv : KV} {k s : String}
    (h : kvGetStr kv k = some s) : kvGet kv k = some (.vstr s) := by
  unfold kvGetStr at h
  cases hg : kvGet kv k with
  | none => rw [hg] at h; exact Option.noConfusion h
  | some v =>
    cases v with
    | vstr t =>
      rw [hg] at h
      simp only [Option.some.injEq] at h
      rw [h]
    | vrec r =>
      rw [hg] at h
      exact Option.noConfusion h

theorem kvGetStr_of {kv : KV} {k s : String}
    (h : kvGet kv k = some (.vstr s)) : kvGetStr kv k = some s := by
  unfold kvGetStr
  rw [h]

theorem kvGetRec_some {kv : KV} {k : String} {r : PhotoRecord}
    (h : kvGetRec kv k = some r) : kvGet kv k = some (.vrec r) := by
  unfold kvGetRec at h
  cases hg : kvGet kv k with
  | none => rw [hg] at h; exact Option.noConfusion h
  | some v =>
    cases v with
    | vstr t =>
      rw [hg] at h
      exact Option.noConfusion h
    | vrec rr =>
      rw [hg] at h
      simp only [Option.some.injEq] at h
      rw [h]

theorem clPre_head {c : Char} {p s : List Char}
    (h : clPre (c :: p) s = true) : ∃ t, s = c :: t := by
  cases s with
  | nil => simp [clPre] at h
  | cons b bs =>
    by_cases hcb : c = b
    · exact ⟨bs, by rw [hcb]⟩
    · simp [clPre, hcb] at h

/-- A `lookup:`-namespaced key is never a `data:`-namespaced key. -/
theorem ne_of_pre {a b : String}
    (ha : clPre "lookup:".data a.data = true)
    (hb : clPre "data:".data b.data = true) : a ≠ b := by
  intro hab
  obtain ⟨t1, h1⟩ := clPre_head (p := "ookup:".data) ha
  obtain ⟨t2, h2⟩ := clPre_head (p := "ata:".data) hb
  rw [hab, h2] at h1
  injection h1 with hc _
  exact absurd hc (by decide)

/-- In a well-formed store, distinct ids' lookup entries designate distinct
data keys. -/
theorem lkp_target_ne {kv : KV} (h : WF kv) {i1 i2 dk1 dk2 : String}
    (h1 : kvGet kv (lookupKeyStr i1) = some (.vstr dk1))
    (h2 : kvGet kv (lookupKeyStr i2) = some (.vstr dk2))
    (hne : i1 ≠ i2) : dk1 ≠ dk2 := by
  obtain ⟨d1, r1, hv1, hk1, hg1, _⟩ :=
    h.lookup_side _ _ h1 (lookupPre_lookupKeyStr i1)
  obtain ⟨d2, r2, hv2, hk2, hg2, _⟩ :=
    h.lookup_side _ _ h2 (lookupPre_lookupKeyStr i2)
  cases hv1
  cases hv2
  intro hdd
  rw [hdd] at hg1
  have hr12 : r1 = r2 := by
    have := hg1.symm.trans hg2
    simpa using this
  apply hne
  rw [lookupKeyStr_inj hk1, lookupKeyStr_inj hk2, hr12]

/-- The per-id outcome the batch endpoint reports, as a function of the
pre-state. -/
def expectedItem (kv : KV) (id : String) : BatchItem :=
  match kvGetStr kv (lookupKeyStr id) with
  | none => { id := id, success := false, error := some "Not found" }
  | some dk =>
    match kvGetRec kv dk with
    | none => { id := id, success := false, error := some "Data missing" }
    | some _ => { id := id, success := true }

theorem processOne_cases (kv : KV) (u : BatchUpdates) (id : String) :
    (kvGetStr kv (lookupKeyStr id) = none ∧
      BatchUpdate.processOne kv u id = (expectedItem kv id, [])) ∨
    (∃ dk, kvGetStr kv (lookupKeyStr id) = some dk ∧
      kvGetRec kv dk = none ∧
      BatchUpdate.processOne kv u id = (expectedItem kv id, [])) ∨
    (∃ dk r, kvGetStr kv (lookupKeyStr id) = some dk ∧
      kvGetRec kv dk = some r ∧
      BatchUpdate.processOne kv u id = (expectedItem kv id,
        [.kvPutOp dk (.vrec { r with
          exif := BatchUpdate.mergeExif r.exif u })])) := by
  unfold BatchUpdate.processOne expectedItem
  cases hs : kvGetStr kv (lookupKeyStr id) with
  | none => exact Or.inl ⟨rfl, rfl⟩
  | some dk =>
    cases hr : kvGetRec kv dk with
    | none =>
      refine Or.inr (Or.inl ⟨dk, rfl, hr, ?_⟩)
      dsimp only
      rw [hr]
    | some r =>
      refine Or.inr (Or.inr ⟨dk, r, rfl, hr, ?_⟩)
      dsimp only
      rw [hr]

theorem runBatch_cons (kv : KV) (u : BatchUpdates) (id : String)
    (rest : List String) :
    BatchUpdate.runBatch kv u (id :: rest) =
      ((BatchUpdate.processOne kv u id).1 ::
        (BatchUpdate.runBatch
          (applyOps kv (BatchUpdate.processOne kv u id).2) u rest).1,
       (BatchUpdate.processOne kv u id).2 ++
        (BatchUpdate.runBatch
          (applyOps kv (BatchUpdate.processOne kv u id).2) u rest).2) := rfl

theorem runBatch_spec (u : BatchUpdates) :
    ∀ (ids : List String) (kv : KV), WF kv → ids.Nodup →
    (BatchUpdate.runBatch kv u ids).1 = ids.map (expectedItem kv) ∧
    WF (applyOps kv (BatchUpdate.runBatch kv u ids).2) ∧
    (∀ j, clPre "lookup:".data j.data = true →
      kvGet (applyOps kv (BatchUpdate.runBatch kv u ids).2) j = kvGet kv j) ∧
    (∀ i ∈ ids, ∀ dk r, kvGetStr kv (lookupKeyStr i) = some dk →
      kvGetRec kv dk = some r →
      kvGetRec (applyOps kv (BatchUpdate.runBatch kv u ids).2) dk =
        some { r with exif := BatchUpdate.mergeExif r.exif u }) ∧
    (∀ k, (∀ i ∈ ids, kvGetStr kv (lookupKeyStr i) ≠ some k) →
      kvGet (applyOps kv (BatchUpdate.runBatch kv u ids).2) k = kvGet kv k) := by
  intro ids
  induction ids with
  | nil =>
    intro kv hWF _
    exact ⟨rfl, hWF, fun j _ => rfl, fun i hi => absurd hi (List.not_mem_nil i),
      fun k _ => rfl⟩
  | cons id rest ih =>
    intro kv hWF hnd
    obtain ⟨hid_notin, hnd'⟩ := List.nodup_cons.mp hnd
    rw [runBatch_cons]
    rcases processOne_cases kv u id with ⟨hs, hpo⟩ | ⟨dk, hs, hr, hpo⟩ |
      ⟨dk, r, hs, hr, hpo⟩
    -- lookup missing: no write for this id
    · rw [hpo]
      dsimp only
      rw [show applyOps kv ([] : List Op) = kv from rfl]
      obtain ⟨ih1, ih2, ih3, ih4, ih5⟩ := ih kv hWF hnd'
      refine ⟨by rw [List.map_cons, ih1], ih2, ih3, ?_, ?_⟩
      · intro i hi dk0 r0 h1 h2
        rcases List.mem_cons.mp hi with rfl | hi'
        · rw [hs] at h1
          exact Option.noConfusion h1
        · exact ih4 i hi' dk0 r0 h1 h2
      · intro k hk
        exact ih5 k (fun i hi => hk i (List.mem_cons_of_mem _ hi))
    -- lookup dangling (no record): no write for this id
    · rw [hpo]
      dsimp only
      rw [show applyOps kv ([] : List Op) = kv from rfl]
      obtain ⟨ih1, ih2, ih3, ih4, ih5⟩ := ih kv hWF hnd'
      refine ⟨by rw [List.map_cons, ih1], ih2, ih3, ?_, ?_⟩
      · intro i hi dk0 r0 h1 h2
        rcases List.mem_cons.mp hi with rfl | hi'
        · rw [hs] at h1
          have hdk0 : dk0 = dk := by
            have := Option.some.inj h1
            rw [this]
          rw [hdk0, hr] at h2
          exact Option.noConfusion h2
        · exact ih4 i hi' dk0 r0 h1 h2
      · intro k hk
        exact ih5 k (fun i hi => hk i (List.mem_cons_of_mem _ hi))
    -- live id: one overwrite of its own data key
    · rw [hpo]
      dsimp only
      rw [show applyOps kv [Op.kvPutOp dk (KVValue.vrec { r with
        exif := BatchUpdate.mergeExif r.exif u })] = kvPut kv dk
        (KVValue.vrec { r with exif := BatchUpdate.mergeExif r.exif u })
        from rfl]
      rw [show ∀ l, applyOps kv ([Op.kvPutOp dk (KVValue.vrec { r with
        exif := BatchUpdate.mergeExif r.exif u })] ++ l) = applyOps
        (kvPut kv dk (KVValue.vrec { r with
          exif := BatchUpdate.mergeExif r.exif u })) l from fun l => rfl]
      have hlkv : kvGet kv (lookupKeyStr id) = some (.vstr dk) :=
        kvGetStr_some hs
      have hrecv : kvGet kv dk = some (.vrec r) := kvGetRec_some hr
      obtain ⟨d0, rold, hveq, hkeq, hgold, hdpre0⟩ :=
        hWF.lookup_side _ _ hlkv (lookupPre_lookupKeyStr id)
      cases hveq
      have hrold : rold = r := by
        have := hgold.symm.trans hrecv
        simpa using this
      have hrid : r.id = id := by
        rw [← hrold]
        exact (lookupKeyStr_inj hkeq).symm
      have hWF1 : WF (kvPut kv dk
          (.vrec { r with exif := BatchUpdate.mergeExif r.exif u })) :=
        WF_overwrite hWF hlkv hrid
      have hlk_pres : ∀ j, clPre "lookup:".data j.data = true →
          kvGet (kvPut kv dk
            (.vrec { r with exif := BatchUpdate.mergeExif r.exif u })) j =
          kvGet kv j := by
        intro j hj
        rw [kvGet_put, if_neg (fun hh => (ne_of_pre hj hdpre0) hh.symm)]
      have hstr_pres : ∀ i', kvGetStr (kvPut kv dk
            (.vrec { r with exif := BatchUpdate.mergeExif r.exif u }))
            (lookupKeyStr i') = kvGetStr kv (lookupKeyStr i') := by
        intro i'
        unfold kvGetStr
        rw [hlk_pres _ (lookupPre_lookupKeyStr i')]
      have hrec_pres : ∀ k, k ≠ dk → kvGetRec (kvPut kv dk
            (.vrec { r with exif := BatchUpdate.mergeExif r.exif u })) k =
          kvGetRec kv k := by
        intro k hk
        unfold kvGetRec
        rw [kvGet_put, if_neg (fun hh => hk hh.symm)]
      have hexp : ∀ i' ∈ rest, expectedItem (kvPut kv dk
            (.vrec { r with exif := BatchUpdate.mergeExif r.exif u })) i' =
          expectedItem kv i' := by
        intro i' hi'
        have hne' : i' ≠ id := fun he => hid_notin (he ▸ hi')
        unfold expectedItem
        rw [hstr_pres]
        cases hs' : kvGetStr kv (lookupKeyStr i') with
        | none => rfl
        | some dk' =>
          have hnedk : dk' ≠ dk :=
            lkp_target_ne hWF (kvGetStr_some hs') hlkv hne'
          dsimp only
          rw [hrec_pres dk' hnedk]
      obtain ⟨ih1, ih2, ih3, ih4, ih5⟩ := ih _ hWF1 hnd'
      refine ⟨?_, ih2, ?_, ?_, ?_⟩
      · rw [List.map_cons, ih1]
        rw [List.map_congr_left hexp]
      · intro j hj
        rw [ih3 j hj, hlk_pres j hj]
      · intro i hi dk0 r0 h1 h2
        rcases List.mem_cons.mp hi with rfl | hi'
        · rw [hs] at h1
          obtain rfl : dk = dk0 := Option.some.inj h1
          obtain rfl : r = r0 := by
            have := hr.symm.trans h2
            simpa using this
          have hframe : ∀ i' ∈ rest, kvGetStr (kvPut kv dk
              (.vrec { r with exif := BatchUpdate.mergeExif r.exif u }))
              (lookupKeyStr i') ≠ some dk := by
            intro i' hi' hcon
            rw [hstr_pres] at hcon
            exact lkp_target_ne hWF (kvGetStr_some hcon) hlkv
              (fun he => hid_notin (he ▸ hi')) rfl
          have hh := ih5 dk hframe
          unfold kvGetRec
          rw [hh, kvGet_put, if_pos rfl]
        · have h1' : kvGetStr (kvPut kv dk
              (.vrec { r with exif := BatchUpdate.mergeExif r.exif u }))
              (lookupKeyStr i) = some dk0 := by
            rw [hstr_pres]
            exact h1
          have hnedk : dk0 ≠ dk := lkp_target_ne hWF (kvGetStr_some h1) hlkv
            (fun he => hid_notin (he ▸ hi'))
          have h2' : kvGetRec (kvPut kv dk
              (.vrec { r with exif := BatchUpdate.mergeExif r.exif u }))
              dk0 = some r0 := by
            rw [hrec_pres dk0 hnedk]
            exact h2
          exact ih4 i hi' dk0 r0 h1' h2'
      · intro k hk
        have hkdk : k ≠ dk := by
          intro he
          exact hk id (List.mem_cons_self id rest) (he ▸ hs)
        have hframe : ∀ i' ∈ rest, kvGetStr (kvPut kv dk
            (.vrec { r with exif := BatchUpdate.mergeExif r.exif u }))
            (lookupKeyStr i') ≠ some k := by
          intro i' hi' hcon
          rw [hstr_pres] at hcon
          exact hk i' (List.mem_cons_of_mem _ hi') hcon
        rw [ih5 k hframe, kvGet_put, if_neg (fun hh => hkdk hh.symm)]

/-- C8: per-id independence of the batch update.  The response reports each
id's outcome as a function of that id's own state in the store (an id with
no lookup entry yields a "Not found" failure entry), and every live id's
update is durably applied to its own primary key regardless of the other
ids' failures; keys not designated by any requested id are untouched. -/
theorem c8_batch_per_id_independence (token : String) (kv : KV)
    (ids : List String) (u : BatchUpdates) (hWF : WF kv) (hnd : ids.Nodup)
    (hne : ids ≠ []) :
    ∃ ops,
      BatchUpdate.onRequestPost token (some ("Bearer " ++ token)) kv ids u =
        (.batchOk true (ids.map (expectedItem kv)), ops) ∧
      (∀ i ∈ ids, ∀ dk r, kvGetStr kv (lookupKeyStr i) = some dk →
        kvGetRec kv dk = some r →
        kvGetRec (applyOps kv ops) dk =
          some { r with exif := BatchUpdate.mergeExif r.exif u }) ∧
      (∀ i ∈ ids, kvGetStr kv (lookupKeyStr i) = none →
        expectedItem kv i =
          { id := i, success := false, error := some "Not found" }) ∧
      (∀ k, (∀ i ∈ ids, kvGetStr kv (lookupKeyStr i) ≠ some k) →
        kvGet (applyOps kv ops) k = kvGet kv k) := by
  obtain ⟨h1, _, _, h4, h5⟩ := runBatch_spec u ids kv hWF hnd
  refine ⟨(BatchUpdate.runBatch kv u ids).2, ?_, h4, ?_, h5⟩
  · unfold BatchUpdate.onRequestPost
    rw [if_neg (by simp [authOk]), if_neg hne, ← h1]
  · intro i _ hnone
    unfold expectedItem
    rw [hnone]

/-- Witness for C8: batch over ids a, b, c on the two-record store (c does
not exist) — the response lists two successes and one "Not found" failure,
and the two successful updates are persisted. -/
theorem c8_batch_per_id_independence_witness :
    (["a", "b", "c"] : List String).Nodup ∧
    (["a", "b", "c"] : List String) ≠ [] ∧
    (["a", "b", "c"].map (expectedItem kvAB) =
      [{ id := "a", success := true },
       { id := "b", success := true },
       { id := "c", success := false, error := some "Not found" }]) ∧
    ∃ ops,
      BatchUpdate.onRequestPost "tok" (some ("Bearer " ++ "tok")) kvAB
          ["a", "b", "c"] uW =
        (.batchOk true (["a", "b", "c"].map (expectedItem kvAB)), ops) ∧
      (∀ i ∈ (["a", "b", "c"] : List String), ∀ dk r,
        kvGetStr kvAB (lookupKeyStr i) = some dk →
        kvGetRec kvAB dk = some r →
        kvGetRec (applyOps kvAB ops) dk =
          some { r with exif := BatchUpdate.mergeExif r.exif uW }) ∧
      (∀ i ∈ (["a", "b", "c"] : List String),
        kvGetStr kvAB (lookupKeyStr i) = none →
        expectedItem kvAB i =
          { id := i, success := false, error := some "Not found" }) ∧
      (∀ k, (∀ i ∈ (["a", "b", "c"] : List String),
          kvGetStr kvAB (lookupKeyStr i) ≠ some k) →
        kvGet (applyOps kvAB ops) k = kvGet kvAB k) :=
  ⟨by decide, by decide, by decide,
    c8_batch_per_id_independence "tok" kvAB ["a", "b", "c"] uW wf_kvAB
      (by decide) (by decide)⟩

/-- The `photoData` document built by `upload.ts`. -/
def uploadRec (meta : Meta) (pid baseUrl : String) (f : FileData)
    (now : String) : PhotoRecord :=
  { id := pid, title := meta.title, description := "",
    tags := [meta.category], created_at := some now, updated_at := now,
    object_key := "photos/" ++ pid ++ ".jpg", mime := f.ftype,
    size_bytes := f.size, width := meta.width, height := meta.height,
    exif := meta.exif.getD {}, rating := meta.rating.getD 0, is_public := 1,
    url := baseUrl ++ "/" ++ ("photos/" ++ pid ++ ".jpg"), urls := none }

theorem upload_eq (token baseUrl : String) (kv : KV) (f : FileData)
    (meta : Meta) (pid now : String) (ts : Nat) :
    Upload.onRequestPost token baseUrl (some ("Bearer " ++ token)) kv
        (some f) (some meta) pid now ts =
      (.uploadOk pid (baseUrl ++ "/" ++ ("photos/" ++ pid ++ ".jpg")),
        [.r2Put ("photos/" ++ pid ++ ".jpg"),
         .kvPutOp (dataKeyStr (invertTs ts) pid)
           (.vrec (uploadRec meta pid baseUrl f now)),
         .kvPutOp (lookupKeyStr pid)
           (.vstr (dataKeyStr (invertTs ts) pid))]) := by
  unfold Upload.onRequestPost
  rw [if_neg (by simp [authOk])]
  rfl

theorem delete_post (token : String) (kv : KV) (id : String) :
    applyOps kv (PhotoId.onRequestDelete token (some ("Bearer " ++ token))
        kv id).2 =
      match kvGetStr kv (lookupKeyStr id) with
      | none => kv
      | some dk => kvDel (kvDel kv (lookupKeyStr id)) dk := by
  unfold PhotoId.onRequestDelete
  rw [if_neg (by simp [authOk])]
  dsimp only
  cases hs : kvGetStr kv (lookupKeyStr id) with
  | none => rfl
  | some dk =>
    dsimp only
    cases hr : kvGetRec kv dk with
    | none => rfl
    | some dd =>
      dsimp only
      by_cases ho : dd.object_key ≠ ""
      · rw [if_pos ho]
        rfl
      · rw [if_neg ho]
        rfl

/-- C1: the two-key index invariant (`WF`) is preserved by every successful
mutating operation: upload.ts creation (fresh id, fresh timestamp key),
`[id].ts` edits of existing records with or without a new file, the
`[id].ts` silent-create fallback for an edit with a new file, the
multi-variant handler's edit and silent-create paths, deletion, and batch
updates over distinct ids.  `WF` states that every `data:` entry is a
record under a key of shape `data:{inv}:{id}` with exactly one `lookup:`
entry for its id pointing back at that exact key, and every `lookup:`
entry resolves to a record carrying its id (`WF.data_unique` derives the
one-primary-key-per-id property). -/
theorem c1_two_key_invariant_preserved (token baseUrl : String) (kv : KV)
    (hWF : WF kv) :
    (∀ (f : FileData) (meta : Meta) (pid now : String) (ts : Nat),
      kvGet kv (lookupKeyStr pid) = none →
      kvGet kv (dataKeyStr (invertTs ts) pid) = none →
      WF (applyOps kv (Upload.onRequestPost token baseUrl
        (some ("Bearer " ++ token)) kv (some f) (some meta) pid now ts).2)) ∧
    (∀ (file : Option FileData) (meta : Meta) (genId now : String) (ts : Nat)
      (i d : String) (old : PhotoRecord),
      meta.id = some i → i ≠ "" →
      kvGet kv (lookupKeyStr i) = some (.vstr d) →
      kvGet kv d = some (.vrec old) →
      WF (applyOps kv (PhotoId.onRequestPost token baseUrl
        (some ("Bearer " ++ token)) kv file (some meta) genId now ts).2)) ∧
    (∀ (f : FileData) (meta : Meta) (genId now : String) (ts : Nat)
      (i : String),
      meta.id = some i → i ≠ "" → f.size > 0 →
      kvGet kv (lookupKeyStr i) = none →
      kvGet kv (dataKeyStr (invertTs ts) i) = none →
      WF (applyOps kv (PhotoId.onRequestPost token baseUrl
        (some ("Bearer " ++ token)) kv (some f) (some meta) genId now
        ts).2)) ∧
    (∀ (fs fm fl lf : Option FileData) (meta : Meta) (genId now : String)
      (ts : Nat) (i d : String) (old : PhotoRecord),
      meta.id = some i → i ≠ "" →
      kvGet kv (lookupKeyStr i) = some (.vstr d) →
      kvGet kv d = some (.vrec old) →
      WF (applyOps kv (Part004.onRequestPost token baseUrl
        (some ("Bearer " ++ token)) kv fs fm fl lf (some meta) genId now
        ts).2)) ∧
    (∀ (fs fm fl lf : Option FileData) (meta : Meta) (genId now : String)
      (ts : Nat) (i : String),
      meta.id = some i → i ≠ "" →
      kvGet kv (lookupKeyStr i) = none →
      kvGet kv (dataKeyStr (invertTs ts) i) = none →
      WF (applyOps kv (Part004.onRequestPost token baseUrl
        (some ("Bearer " ++ token)) kv fs fm fl lf (some meta) genId now
        ts).2)) ∧
    (∀ id : String,
      WF (applyOps kv (PhotoId.onRequestDelete token
        (some ("Bearer " ++ token)) kv id).2)) ∧
    (∀ (ids : List String) (u : BatchUpdates), ids.Nodup →
      WF (applyOps kv (BatchUpdate.onRequestPost token
        (some ("Bearer " ++ token)) kv ids u).2)) := by
  refine ⟨?_, ?_, ?_, ?_, ?_, ?_, ?_⟩
  -- (1) upload.ts create: data key first, lookup second
  · intro f meta pid now ts hfl hfd
    rw [upload_eq]
    exact WF_create_data_first hWF rfl hfl hfd
  -- (2) [id].ts edit of an existing record
  · intro file meta genId now ts i d old hid hne hlk hrec
    rw [editPhoto_existing_eq token baseUrl kv file meta genId now ts hid hne
      hlk hrec]
    cases file with
    | none => exact WF_overwrite hWF hlk rfl
    | some f =>
      by_cases hf : f.size > 0
      · dsimp only
        rw [if_pos hf]
        exact WF_overwrite hWF hlk rfl
      · dsimp only
        rw [if_neg hf]
        exact WF_overwrite hWF hlk rfl
  -- (3) [id].ts silent create on edit-with-file, lookup first, data second
  · intro f meta genId now ts i hid hne hf hfl hfd
    rw [editPhoto_missing_eq token baseUrl kv (some f) meta genId now ts hid
      hne hfl]
    dsimp only
    rw [if_pos hf]
    exact WF_create_lookup_first hWF rfl hfl hfd
  -- (4) multi-variant edit of an existing record
  · intro fs fm fl lf meta genId now ts i d old hid hne hlk hrec
    rw [part004_edit_existing token baseUrl kv fs fm fl lf meta genId now ts
      hid hne hlk hrec]
    have hkv0 := variantStage_kv baseUrl i fs fm fl lf (old.urls.getD {})
      old.url old.object_key old.size_bytes kv
    rcases hV : Part004.variantStage baseUrl i fs fm fl lf (old.urls.getD {})
      old.url old.object_key old.size_bytes with ⟨u1, okey, sz, mu, ops0⟩
    rw [hV] at hkv0
    simp only at hkv0
    dsimp only
    rw [applyOps_append, hkv0]
    exact WF_overwrite hWF hlk rfl
  -- (5) multi-variant silent create
  · intro fs fm fl lf meta genId now ts i hid hne hfl hfd
    rw [part004_missing_eq token baseUrl kv fs fm fl lf meta genId now ts hid
      hne hfl]
    have hkv0 := variantStage_kv baseUrl i fs fm fl lf {} "" "" 0 kv
    rcases hV : Part004.variantStage baseUrl i fs fm fl lf {} "" "" 0 with
      ⟨u1, okey, sz, mu, ops0⟩
    rw [hV] at hkv0
    simp only at hkv0
    dsimp only
    rw [applyOps_append, hkv0]
    exact WF_create_lookup_first hWF rfl hfl hfd
  -- (6) delete
  · intro id
    rw [delete_post]
    cases hs : kvGetStr kv (lookupKeyStr id) with
    | none => exact hWF
    | some dk => exact WF_delete hWF (kvGetStr_some hs)
  -- (7) batch update
  · intro ids u hnd
    unfold BatchUpdate.onRequestPost
    rw [if_neg (by simp [authOk])]
    by_cases hids : ids = []
    · rw [if_pos hids]
      exact hWF
    · rw [if_neg hids]
      obtain ⟨_, h2, _, _, _⟩ := runBatch_spec u ids kv hWF hnd
      exact h2

/-- Witness for C1 on the two-record store: the invariant holds and is
preserved by a concrete fresh upload, a concrete edit of "a", a concrete
delete of "a", and a concrete batch update. -/
theorem c1_two_key_invariant_preserved_witness :
    WF kvAB ∧
    WF (applyOps kvAB (Upload.onRequestPost "tok" "https://img.example"
      (some ("Bearer " ++ "tok")) kvAB (some { ftype := "image/jpeg", size := 7 })
      (some { title := some "N", category := "风光" }) "n1"
      "2024-06-01T00:00:00.000Z" 1700000000000).2) ∧
    WF (applyOps kvAB (PhotoId.onRequestPost "tok" "https://img.example"
      (some ("Bearer " ++ "tok")) kvAB none (some metaW) "gen"
      "2024-06-01T00:00:00.000Z" 1700000000000).2) ∧
    WF (applyOps kvAB (PhotoId.onRequestDelete "tok"
      (some ("Bearer " ++ "tok")) kvAB "a").2) ∧
    WF (applyOps kvAB (BatchUpdate.onRequestPost "tok"
      (some ("Bearer " ++ "tok")) kvAB ["a", "b"] uW).2) :=
  ⟨wf_kvAB,
   (c1_two_key_invariant_preserved "tok" "https://img.example" kvAB
     wf_kvAB).1 { ftype := "image/jpeg", size := 7 }
     { title := some "N", category := "风光" } "n1"
     "2024-06-01T00:00:00.000Z" 1700000000000 (by decide) (by decide),
   (c1_two_key_invariant_preserved "tok" "https://img.example" kvAB
     wf_kvAB).2.1 none metaW "gen" "2024-06-01T00:00:00.000Z" 1700000000000
     "a" "data:456:a" recA rfl (by decide) (by decide) (by decide),
   (c1_two_key_invariant_preserved "tok" "https://img.example" kvAB
     wf_kvAB).2.2.2.2.2.1 "a",
   (c1_two_key_invariant_preserved "tok" "https://img.example" kvAB
     wf_kvAB).2.2.2.2.2.2 ["a", "b"] uW (by decide)⟩

theorem del2_facts (kv : KV) (lk dk : String) :
    kvGet (kvDel (kvDel kv lk) dk) lk = none ∧
    kvGet (kvDel (kvDel kv lk) dk) dk = none ∧
    kvGet (kvDel kv lk) lk = none ∧
    (∀ v, dk ≠ lk → kvGet kv dk = some v →
      kvGet (kvDel kv lk) dk = some v) := by
  refine ⟨?_, ?_, ?_, ?_⟩
  · rw [kvGet_del]
    by_cases h : dk = lk
    · rw [if_pos h]
    · rw [if_neg h, kvGet_del, if_pos rfl]
  · rw [kvGet_del, if_pos rfl]
  · rw [kvGet_del, if_pos rfl]
  · intro v hne hv
    rw [kvGet_del, if_neg (fun hh => hne hh.symm), hv]

/-- C3 amended: on delete of an existing id both keys are removed, but the
lookup key is deleted FIRST and the primary key second (the failure-ordering
rule of the design notes), so an interruption between the two KV deletes
leaves the primary record still present in the store (it keeps showing up
in prefix scans — leaked) while the id is no longer addressable through the
lookup index. -/
theorem c3_amended_delete_lookup_first (token : String) (kv : KV)
    (id dk : String) (hlk : kvGetStr kv (lookupKeyStr id) = some dk) :
    ∃ r2ops,
      PhotoId.onRequestDelete token (some ("Bearer " ++ token)) kv id =
        (.deleteOk, r2ops ++ [.kvDelOp (lookupKeyStr id), .kvDelOp dk]) ∧
      (∀ op ∈ r2ops, ∃ k, op = Op.r2Del k) ∧
      kvGet (applyOps kv (r2ops ++
        [.kvDelOp (lookupKeyStr id), .kvDelOp dk])) (lookupKeyStr id) =
        none ∧
      kvGet (applyOps kv (r2ops ++
        [.kvDelOp (lookupKeyStr id), .kvDelOp dk])) dk = none ∧
      kvGet (applyOps kv (r2ops ++ [.kvDelOp (lookupKeyStr id)]))
        (lookupKeyStr id) = none ∧
      (∀ v, dk ≠ lookupKeyStr id → kvGet kv dk = some v →
        kvGet (applyOps kv (r2ops ++ [.kvDelOp (lookupKeyStr id)])) dk =
          some v) := by
  obtain ⟨hd1, hd2, hd3, hd4⟩ := del2_facts kv (lookupKeyStr id) dk
  unfold PhotoId.onRequestDelete
  rw [if_neg (by simp [authOk])]
  dsimp only
  rw [hlk]
  dsimp only
  cases hr : kvGetRec kv dk with
  | none => exact ⟨[], rfl, by simp, hd1, hd2, hd3, hd4⟩
  | some dd =>
    dsimp only
    by_cases ho : dd.object_key ≠ ""
    · rw [if_pos ho]
      exact ⟨[Op.r2Del dd.object_key], rfl, by simp, hd1, hd2, hd3, hd4⟩
    · rw [if_neg ho]
      exact ⟨[], rfl, by simp, hd1, hd2, hd3, hd4⟩

/-- Witness for the amended C3 at the concrete store. -/
theorem c3_amended_delete_lookup_first_witness :
    kvGetStr kvAB (lookupKeyStr "a") = some "data:456:a" ∧
    ∃ r2ops,
      PhotoId.onRequestDelete "tok" (some ("Bearer " ++ "tok")) kvAB "a" =
        (.deleteOk, r2ops ++
          [.kvDelOp (lookupKeyStr "a"), .kvDelOp "data:456:a"]) ∧
      (∀ op ∈ r2ops, ∃ k, op = Op.r2Del k) ∧
      kvGet (applyOps kvAB (r2ops ++
        [.kvDelOp (lookupKeyStr "a"), .kvDelOp "data:456:a"]))
        (lookupKeyStr "a") = none ∧
      kvGet (applyOps kvAB (r2ops ++
        [.kvDelOp (lookupKeyStr "a"), .kvDelOp "data:456:a"]))
        "data:456:a" = none ∧
      kvGet (applyOps kvAB (r2ops ++ [.kvDelOp (lookupKeyStr "a")]))
        (lookupKeyStr "a") = none ∧
      (∀ v, ("data:456:a" : String) ≠ lookupKeyStr "a" →
        kvGet kvAB "data:456:a" = some v →
        kvGet (applyOps kvAB (r2ops ++ [.kvDelOp (lookupKeyStr "a")]))
          "data:456:a" = some v) :=
  ⟨by decide, c3_amended_delete_lookup_first "tok" kvAB "a" "data:456:a"
    (by decide)⟩
